import Mathlib

/-!
Verification development for the kouhai IRC client (a senpai fork).

The definitions below are a shallow embedding of the Go sources:
  * src/irc/states.go      — session state machine (QUIT handling, typing)
  * src/ui/buffers.go      — BufferList, Line, wrap computation
  * src/unnamed/part_002   — App: bounds, line merging, event formatting

Machine integers are modelled as Int/Nat, Go maps as association lists,
fallible code (Go panics) as Option. Library helpers that are not part of
the repository sources (go-runewidth, the styled-string builder) are either
taken as parameters or modelled from the specification, as marked.
-/

namespace Kouhai

/-- Nanoseconds in one second, matching Go `time.Second`. -/
def nsPerSec : Int := 1000000000

/-- Shallow model of Go `time.Time`: an instant as a count of nanoseconds
since the zero time. `IsZero`, `Before`, `After`, `Equal`,
`Truncate(time.Second)` and `Sub` are the only operations the embedded code
performs, and all of them are functions of this count. -/
structure GoTime where
  ns : Int
deriving DecidableEq, Repr

/-- Go `time.Time.Truncate(time.Second)`: round down to a whole second. -/
def GoTime.truncSec (t : GoTime) : GoTime :=
  ⟨t.ns.ediv nsPerSec * nsPerSec⟩

/-- Model of Go `strings.ToLower`, restricted to the ASCII simple case
mapping (`Char.toLower`); all strings in the verified scenarios are ASCII.
Defined on the character list so that it reduces inside the kernel. -/
def goToLower (s : String) : String := ⟨s.data.map Char.toLower⟩

/-- Go compares strings byte-wise; on UTF-8 that is codepoint lexicographic
order, i.e. the order of the character lists. This decidability instance for
the string order computes by structural recursion on the character lists, so
conditionals built from it reduce inside the kernel. -/
instance (priority := 10000) decGoStrLt : ∀ a b : String, Decidable (a < b) :=
  fun a b => decidable_of_iff (a.data < b.data) String.lt_iff_toList_lt.symm

/-- The companion instance for the non-strict string order. -/
instance (priority := 10000) decGoStrLe : ∀ a b : String, Decidable (a ≤ b) :=
  fun a b => decidable_of_iff (a.data ≤ b.data) String.le_iff_toList_le.symm

/-- Modelled from the spec: the terminal (tcell) colors the embedded code
mentions. Only the foreground colors actually set by the sources appear. -/
inductive GoColor
  | colorDefault
  | colorRed
  | colorGreen
  | colorGray
  | colorWhite
deriving DecidableEq, Repr

/-- Modelled from the spec: "A styled string is a plain body plus a sorted
list of (startIndex, style) spans" (ui/style.go is not among the sources).
A style here is its foreground color, the only style attribute the embedded
code sets; span starts are byte indices into the body. -/
structure StyledString where
  str : String
  spans : List (Nat × GoColor)
deriving DecidableEq, Repr

/-- Modelled from the spec: `ui.Styled(s, style)` gives the whole string one
style, a single span starting at byte 0. -/
def styled (s : String) (c : GoColor) : StyledString := ⟨s, [(0, c)]⟩

/-- Modelled from the spec: `ui.PlainString` carries no style spans. -/
def plainString (s : String) : StyledString := ⟨s, []⟩

/-- Association-list model of a Go map: lookup by key, first match wins. -/
def mapLookup {α : Type} (k : String) : List (String × α) → Option α
  | [] => none
  | (k', v) :: rest => if k' = k then some v else mapLookup k rest

/-- Association-list model of Go map deletion. -/
def mapErase {α : Type} (k : String) (m : List (String × α)) : List (String × α) :=
  m.filter (fun p => p.1 != k)

/-- Association-list model of Go map assignment `m[k] = v`. -/
def mapInsert {α : Type} (k : String) (v : α) (m : List (String × α)) : List (String × α) :=
  (k, v) :: mapErase k m

/-- Events carried by mergeable timeline lines: the `irc` event variants that
`App.formatEvent` and `App.mergeLine` (src/unnamed/part_002) handle, with the
fields those functions read. -/
inductive IrcEvent
  | userNick (formerNick user : String) (time : GoTime)
  | userJoin (user : String) (time : GoTime)
  | userPart (user : String) (time : GoTime)
  | userQuit (user : String) (time : GoTime)
  | modeChange (mode : String) (time : GoTime)
deriving DecidableEq, Repr

/-- A split point of a line body (src/ui/buffers.go `point`): screen
position `x`, byte index `i`, and whether it starts a whitespace run. -/
structure Point where
  x : Int
  i : Nat
  split : Bool
deriving DecidableEq, Repr

/-- src/ui/buffers.go `NotifyType`. -/
inductive NotifyType
  | notifyNone
  | notifyUnread
  | notifyHighlight
deriving DecidableEq, Repr

/-- src/ui/buffers.go `Line`. `at_` is the Go `At` field; `data` holds the
source events of mergeable lines (the only values the Go `Data` field ever
carries in the sources); `splitPoints`, `width` and `newLines` are the wrap
cache. -/
structure Line where
  at_ : GoTime
  head : String
  body : StyledString
  headColor : GoColor
  highlight : Bool
  readable : Bool
  mergeable : Bool
  data : List IrcEvent
  splitPoints : List Point
  width : Int
  newLines : List Nat
deriving DecidableEq, Repr

/-- The zero value of the Go `ui.Line` struct. -/
def zeroLine : Line :=
  ⟨⟨0⟩, "", ⟨"", []⟩, .colorDefault, false, false, false, [], [], 0, []⟩

/-- src/unnamed/part_002 `bound`: first/last known timestamps of a buffer
and the bodies of the lines observed at those instants. -/
structure Bound where
  first : GoTime
  last : GoTime
  firstMessage : String
  lastMessage : String
deriving DecidableEq, Repr

/-- src/unnamed/part_002 `bound.Compare` (lines 37-53): 0 if the line is
within the bounds, -1 if before, 1 if after; an equal boundary timestamp
with a differing body counts as before. -/
def Bound.Compare (b : Bound) (l : Line) : Int :=
  if (l.at_.truncSec).ns < b.first.ns then -1
  else if (l.at_.truncSec).ns > b.last.ns then 1
  else if (l.at_.truncSec).ns = b.first.ns ∧ l.body.str ≠ b.firstMessage then -1
  else if (l.at_.truncSec).ns = b.last.ns ∧ l.body.str ≠ b.lastMessage then -1
  else 0

/-- src/unnamed/part_002 `bound.Update` (lines 55-68): widen the bounds to
include the given line (ignoring lines whose timestamp is the zero time). -/
def Bound.Update (b : Bound) (l : Line) : Bound :=
  if l.at_.ns = 0 then b
  else if b.first.ns = 0 ∨ (l.at_.truncSec).ns < b.first.ns then
    { b with first := l.at_.truncSec, firstMessage := l.body.str }
  else if b.last.ns = 0 ∨ (l.at_.truncSec).ns > b.last.ns then
    { b with last := l.at_.truncSec, lastMessage := l.body.str }
  else b

/-- src/unnamed/part_002 `bound.IsZero`: the bound is empty when its first
timestamp is the zero time. -/
def Bound.IsZero (b : Bound) : Prop := b.first.ns = 0

instance (b : Bound) : Decidable b.IsZero := by
  unfold Bound.IsZero
  infer_instance

/-- src/irc/states.go `User`. -/
structure User where
  nick : String
  awayMsg : String
deriving DecidableEq, Repr

/-- src/irc/states.go `Channel`: display name, member map (case-folded nick →
power level), topic data and secret flag. -/
structure Channel where
  name : String
  members : List (String × String)
  topic : String
  topicWho : String
  topicTime : GoTime
  secret : Bool
deriving DecidableEq, Repr

/-- src/irc/states.go `Session`, restricted to its protocol-state fields (the
connection, channels-of-messages and goroutine plumbing carry no protocol
state relevant to the claims). Go maps and sets become association lists and
lists. -/
structure Session where
  registered : Bool
  typingStamps : List (String × GoTime)
  nick : String
  nickCf : String
  user : String
  real : String
  acct : String
  host : String
  availableCaps : List (String × String)
  enabledCaps : List String
  features : List (String × String)
  users : List (String × User)
  channels : List (String × Channel)
deriving DecidableEq, Repr

/-- src/irc/states.go `UserPartEvent`, the event the QUIT case emits: the
channels the user was a member of, the nick, and the event time. -/
structure UserPartEvent where
  channels : List String
  nick : String
  time : GoTime
deriving DecidableEq, Repr

/-- src/irc/states.go `Session.handle`, QUIT case (lines 621-643). `nick` is
the nick part of the message prefix and `t` the server-time tag or receipt
time; both are produced by helpers outside the sources (modelled from the
spec: "Prefix is nick!user@host", "if a time= tag is present and parseable
... it is used as the event time; otherwise the wall clock"). The case
collects every channel whose member map contains the case-folded nick and
emits a `UserPartEvent` carrying that list; the session state is returned
exactly as the case leaves it. -/
def Session.handleQuit (s : Session) (nick : String) (t : GoTime) :
    Session × UserPartEvent :=
  let nickCf := goToLower nick
  let channels := s.channels.filterMap fun p =>
    if (mapLookup nickCf p.2.members).isSome then some p.2.name else none
  (s, ⟨channels, nick, t⟩)

/-- src/irc/states.go `Session.typing` (lines 283-299): suppressed without
the `message-tags` capability; rate-limited to one notice per three seconds
per case-folded target (`now.Sub(t).Seconds() < 3.0`, which on nanosecond
counts of realistic magnitude is the integer comparison below); otherwise the
timestamp is recorded and `@+typing=active TAGMSG <target>` is sent. `now`
models `time.Now()`; the returned string is the line written out, if any. -/
def Session.typing (s : Session) (channel : String) (now : GoTime) :
    Session × Option String :=
  if ¬ s.enabledCaps.contains "message-tags" then (s, none)
  else
    match mapLookup (goToLower channel) s.typingStamps with
    | some t =>
      if now.ns - t.ns < 3 * nsPerSec then (s, none)
      else
        ({ s with typingStamps := mapInsert (goToLower channel) now s.typingStamps },
          some ("@+typing=active TAGMSG " ++ channel ++ "\r\n"))
    | none =>
      ({ s with typingStamps := mapInsert (goToLower channel) now s.typingStamps },
        some ("@+typing=active TAGMSG " ++ channel ++ "\r\n"))

/-- Model of Go `strings.Split(s, " ")`: split on every single space. -/
def splitCharsOnSpace : List Char → List (List Char)
  | [] => [[]]
  | c :: rest =>
    let r := splitCharsOnSpace rest
    if c = ' ' then [] :: r
    else
      match r with
      | [] => [[c]]
      | h :: t => (c :: h) :: t

/-- Model of Go `strings.Split(s, " ")` on strings. -/
def goSplitSpace (s : String) : List String :=
  (splitCharsOnSpace s.data).map fun cs => (⟨cs⟩ : String)

/-- Modelled from the spec: the styled-string builder of ui/style.go as used
by `App.formatEvent` and `App.mergeLine`. `setStyle` records a span starting
at the current byte length, `write` appends text, `writeStyled` appends a
styled string shifting its span starts, `addStyle` records a span at an
explicit byte index. Only the resulting `str` is observable by the claims. -/
structure Builder where
  str : String
  spans : List (Nat × GoColor)
deriving DecidableEq, Repr

def Builder.setStyle (b : Builder) (c : GoColor) : Builder :=
  { b with spans := b.spans ++ [(b.str.utf8ByteSize, c)] }

def Builder.write (b : Builder) (s : String) : Builder :=
  { b with str := b.str ++ s }

def Builder.writeStyled (b : Builder) (s : StyledString) : Builder :=
  { str := b.str ++ s.str,
    spans := b.spans ++ s.spans.map fun p => (b.str.utf8ByteSize + p.1, p.2) }

def Builder.addStyle (b : Builder) (i : Nat) (c : GoColor) : Builder :=
  { b with spans := b.spans ++ [(i, c)] }

def Builder.styledString (b : Builder) : StyledString := ⟨b.str, b.spans⟩

/-- src/unnamed/part_002 `App.formatEvent` (lines 1087-1181): the timeline
line for an event, with the body built exactly by the builder calls of the
source; nick/join/part/quit lines are mergeable, a mode line is mergeable
when the mode string has exactly two space-separated words, and any other
event yields the zero line. -/
def formatEvent : IrcEvent → Line
  | .userNick formerNick user time =>
    let b := (Builder.mk "" []).write (formerNick ++ "→" ++ user)
    let b := b.addStyle 0 .colorGray
    let b := b.addStyle formerNick.utf8ByteSize .colorDefault
    let b := b.addStyle (b.str.utf8ByteSize - user.utf8ByteSize) .colorGray
    { zeroLine with
      at_ := time, head := "--", headColor := .colorGray,
      body := b.styledString, mergeable := true,
      data := [.userNick formerNick user time], readable := true }
  | .userJoin user time =>
    let b := ((((Builder.mk "" []).setStyle .colorGreen).write "+").setStyle
      .colorGray).write user
    { zeroLine with
      at_ := time, head := "--", headColor := .colorGray,
      body := b.styledString, mergeable := true,
      data := [.userJoin user time], readable := true }
  | .userPart user time =>
    let b := ((((Builder.mk "" []).setStyle .colorRed).write "-").setStyle
      .colorGray).write user
    { zeroLine with
      at_ := time, head := "--", headColor := .colorGray,
      body := b.styledString, mergeable := true,
      data := [.userPart user time], readable := true }
  | .userQuit user time =>
    let b := ((((Builder.mk "" []).setStyle .colorRed).write "-").setStyle
      .colorGray).write user
    { zeroLine with
      at_ := time, head := "--", headColor := .colorGray,
      body := b.styledString, mergeable := true,
      data := [.userQuit user time], readable := true }
  | .modeChange mode time =>
    { zeroLine with
      at_ := time, head := "--", headColor := .colorGray,
      body := styled ("[" ++ mode ++ "]") .colorGray,
      mergeable := (goSplitSpace mode).length == 2,
      data := [.modeChange mode time], readable := true }

/-- A user's presence flow during a merge (src/unnamed/part_002
`App.mergeLine`, the local `flow` struct): whether its events are hidden, and
whether the user is newly offline (-1) or newly online (1). -/
structure Flow where
  hide : Bool
  state : Int
deriving DecidableEq, Repr

/-- One step of the event-analysis loop of `App.mergeLine` (lines 1276-1346).
Go's `flows` map holds pointers to shared mutable `flow` records; here the
records live in an arena (a list indexed by allocation order) and the map
stores arena indices. The result is the updated arena and map together with
the event's `eventFlows[i]` entry (`none` when the loop leaves it nil). Note
that in the Go source the mode case indexes `strings.Split(ev.Mode, " ")[1]`,
which panics unless the mode has a second word; callers only merge mode lines
with exactly two words, so the missing-word case (modelled as "") is
unreachable. -/
def flowStep (arena : List Flow) (flows : List (String × Nat)) :
    IrcEvent → List Flow × List (String × Nat) × Option Nat
  | .userNick formerNick user _ =>
    let userCf := goToLower user
    match mapLookup (goToLower formerNick) flows with
    | some fi =>
      (arena, mapErase (goToLower formerNick) (mapInsert userCf fi flows), some fi)
    | none =>
      (arena ++ [⟨false, 0⟩], mapInsert userCf arena.length flows, some arena.length)
  | .userJoin user _ =>
    let userCf := goToLower user
    match mapLookup userCf flows with
    | some fi =>
      match arena.get? fi with
      | some f =>
        if f.state = -1 then
          (arena.set fi { f with hide := true }, mapErase userCf flows, none)
        else (arena, flows, none)
      | none => (arena, flows, none)
    | none =>
      (arena ++ [⟨false, 1⟩], mapInsert userCf arena.length flows, some arena.length)
  | .userPart user _ =>
    let userCf := goToLower user
    match mapLookup userCf flows with
    | some fi =>
      match arena.get? fi with
      | some f =>
        if f.state = 1 then
          (arena.set fi { f with hide := true }, mapErase userCf flows, none)
        else (arena, flows, none)
      | none => (arena, flows, none)
    | none =>
      (arena ++ [⟨false, -1⟩], mapInsert userCf arena.length flows, some arena.length)
  | .userQuit user _ =>
    let userCf := goToLower user
    match mapLookup userCf flows with
    | some fi =>
      match arena.get? fi with
      | some f =>
        if f.state = 1 then
          (arena.set fi { f with hide := true }, mapErase userCf flows, none)
        else (arena, flows, none)
      | none => (arena, flows, none)
    | none =>
      (arena ++ [⟨false, -1⟩], mapInsert userCf arena.length flows, some arena.length)
  | .modeChange mode _ =>
    let userCf := goToLower ((goSplitSpace mode).getD 1 "")
    match mapLookup userCf flows with
    | some fi => (arena, flows, some fi)
    | none =>
      (arena ++ [⟨false, 0⟩], mapInsert userCf arena.length flows, some arena.length)

/-- The first pass of `App.mergeLine`: analyze the combined event list,
yielding the final arena together with each event's flow index. -/
def flowAnalyze (events : List IrcEvent) : List Flow × List (Option Nat) :=
  let r := events.foldl
    (fun (acc : List Flow × List (String × Nat) × List (Option Nat)) ev =>
      let (arena', flows', ef) := flowStep acc.1 acc.2.1 ev
      (arena', flows', acc.2.2 ++ [ef]))
    ([], [], [])
  (r.1, r.2.2)

/-- The second pass of `App.mergeLine` (lines 1348-1362): re-render the
surviving events (flow present and not hidden), separated by two spaces. -/
def renderEvents (events : List IrcEvent) : StyledString :=
  let ar := flowAnalyze events
  let r := (events.zip ar.2).foldl
    (fun (acc : Builder × Bool) p =>
      match p.2 with
      | none => acc
      | some fi =>
        match ar.1.get? fi with
        | some f =>
          if f.hide then acc
          else
            let bld := if acc.2 then acc.1 else acc.1.write "  "
            (bld.writeStyled (formatEvent p.1).body, false)
        | none => acc)
    (Builder.mk "" [], true)
  r.1.styledString

/-- src/unnamed/part_002 `App.mergeLine` (lines 1266-1365): append the
addition's events to the former line's, re-analyze the combined list, and
re-render the body from the surviving events; the former line keeps its other
fields. -/
def mergeLine (former : Line) (addition : Line) : Line :=
  let events := former.data ++ addition.data
  { former with body := renderEvents events, data := events }

/-- src/ui/buffers.go `IsSplitRune`: space and tab begin whitespace runs. -/
def IsSplitRune (c : Char) : Bool := c == ' ' || c == '\t'

/-- src/ui/buffers.go `Line.computeSplitPoints` (lines 50-81), loop body: a
split point at the start of every whitespace run and of every non-whitespace
run, plus a final sentinel after a trailing non-whitespace run. `i` is the
byte index and `w` the accumulated cell width, as in the Go loop; the cell
width of a rune is the go-runewidth library call, taken as the parameter
`rw`. -/
def computeSplitPointsAux (rw : Char → Nat) :
    List Char → Nat → Int → Bool → List Point
  | [], i, w, lastWasSplit => if ¬lastWasSplit then [⟨w, i, true⟩] else []
  | c :: rest, i, w, lastWasSplit =>
    let cur := IsSplitRune c
    let pts : List Point :=
      if i = 0 ∨ lastWasSplit ≠ cur then [⟨w, i, cur⟩] else []
    pts ++ computeSplitPointsAux rw rest (i + c.utf8Size) (w + (rw c : Int)) cur

/-- src/ui/buffers.go `Line.computeSplitPoints`. -/
def computeSplitPoints (rw : Char → Nat) (body : String) : List Point :=
  computeSplitPointsAux rw body.data 0 0 false

/-- The characters of a body whose byte offsets lie in `[startB, endB)` —
the Go substring `l.Body.string[sp1.I:sp2.I]` (split points always lie on
rune boundaries). `pos` is the byte offset of the list head. -/
def bytesSlice : List Char → Nat → Nat → Nat → List Char
  | [], _, _, _ => []
  | c :: rest, pos, startB, endB =>
    if pos < startB then bytesSlice rest (pos + c.utf8Size) startB endB
    else if pos < endB then c :: bytesSlice rest (pos + c.utf8Size) startB endB
    else []

/-- src/ui/buffers.go `Line.NewLines`, the inner loop of the long-word branch
(lines 144-152): walk the word's runes accumulating `wordWidth`, emitting a
break at `sp1.I + j` whenever the accumulated width spills past row `h`.
Returns the breaks in order and the final word width. -/
def longWordBreaksAux (rw : Char → Nat) (width x : Int) (sp1I : Nat) :
    List Char → Nat → Int → Int → List Nat × Int
  | [], _, ww, _ => ([], ww)
  | c :: rest, j, ww, h =>
    let ww' := ww + (rw c : Int)
    if h * width < x + ww' then
      let r := longWordBreaksAux rw width x sp1I rest (j + c.utf8Size) ww' (h + 1)
      ((sp1I + j) :: r.1, r.2)
    else
      longWordBreaksAux rw width x sp1I rest (j + c.utf8Size) ww' h

/-- src/ui/buffers.go `Line.NewLines`, main loop (lines 100-171): iterate
over adjacent split-point pairs `(sp1, sp2)` carrying the row position `x`
and the accumulated break list; `prev` is the split point before `sp1`
(`l.splitPoints[i-2]`, present when `1 < i`). Each branch mirrors one
if/else-if arm of the Go code, in order. -/
def newLinesLoop (rw : Char → Nat) (chars : List Char) (width : Int) :
    Option Point → Point → List Point → Int → List Nat → List Nat
  | _, _, [], _, acc => acc
  | prev, sp1, sp2 :: rest, x, acc =>
    let step : Int × List Nat :=
      if acc.length > 0 ∧ x = 0 ∧ sp1.split then (x, acc)
      else if ¬sp1.split ∧ sp2.x - sp1.x = width then
        let acc1 :=
          match prev with
          | some sp0 =>
            if acc.length > 0 ∧ acc.getLast? ≠ some sp0.i then acc ++ [sp0.i]
            else acc
          | none => acc
        (0, acc1 ++ [sp2.i])
      else if sp2.x - sp1.x + x < width then (x + (sp2.x - sp1.x), acc)
      else if sp2.x - sp1.x + x = width then (0, acc ++ [sp2.i])
      else if sp1.split ∧ width < sp2.x - sp1.x then (0, acc ++ [sp1.i])
      else if width < sp2.x - sp1.x then
        let word := bytesSlice chars 0 sp1.i sp2.i
        let r := longWordBreaksAux rw width x sp1.i word 0 0 1
        let acc1 := acc ++ r.1
        let x1 := (x + r.2).tmod width
        if x1 = 0 then (x1, acc1 ++ [sp2.i]) else (x1, acc1)
      else ((if sp1.split then 0 else sp2.x - sp1.x), acc ++ [sp1.i])
    newLinesLoop rw chars width (some sp1) sp2 rest step.1 step.2

/-- src/ui/buffers.go `Line.NewLines`, the pure recomputation for a width:
run the main loop over the split points and drop a trailing break at the
exact end of the body (lines 173-177). -/
def newLinesCompute (rw : Char → Nat) (body : String) (sps : List Point)
    (width : Int) : List Nat :=
  let nl :=
    match sps with
    | [] => []
    | sp1 :: rest => newLinesLoop rw body.data width none sp1 rest 0 []
  if nl.getLast? = some body.utf8ByteSize then nl.dropLast else nl

/-- src/ui/buffers.go `Line.NewLines` (lines 83-180): the width-keyed wrap
cache. If the cached width equals the requested one the cached vector is
returned unchanged; otherwise the indices are recomputed for the requested
width and cached. Returns the updated line together with its result. -/
def Line.NewLines (rw : Char → Nat) (l : Line) (width : Int) :
    Line × List Nat :=
  if l.width = width then (l, l.newLines)
  else
    let nl := newLinesCompute rw l.body.str l.splitPoints width
    ({ l with width := width, newLines := nl }, nl)

/-- src/ui/buffers.go `Overlay`. -/
def Overlay : String := "/overlay"

/-- src/ui/buffers.go `buffer`. `readAt` is the Go `read` field. -/
structure Buffer where
  netID : String
  netName : String
  title : String
  highlights : Nat
  unread : Bool
  readAt : GoTime
  openedOnce : Bool
  lines : List Line
  topic : String
  scrollAmt : Int
  isAtTop : Bool
deriving DecidableEq, Repr

/-- The buffer `BufferList.Add` creates: the given identity and zero values
elsewhere. -/
def newBuffer (netID netName title : String) : Buffer :=
  ⟨netID, netName, title, 0, false, ⟨0⟩, false, [], "", 0, false⟩

/-- src/ui/buffers.go `BufferList` (its state fields; the color
configuration is pure presentation, and the `doMergeLine` callback is wired
by `NewApp` to `App.mergeLine`, embedded above as `mergeLine`). `current`
and `clicked` are Go ints. -/
structure BufferList where
  list : List Buffer
  overlay : Option Buffer
  current : Int
  clicked : Int
  tlInnerWidth : Int
  tlHeight : Int
  showBufferNumbers : Bool
deriving DecidableEq, Repr

/-- src/ui/buffers.go `NewBufferList`. -/
def NewBufferList : BufferList := ⟨[], none, 0, -1, 0, 0, false⟩

/-- A pointer to a buffer slot: the overlay, or a list index. Go compares
`*buffer` pointers; two such pointers are equal exactly when they name the
same slot. -/
inductive Loc
  | ovl
  | idx (i : Nat)
deriving DecidableEq, Repr

/-- The scan of `BufferList.at`: the first index whose buffer matches the
netID and the case-folded title. -/
def findBufIdx (netID lTitle : String) : List Buffer → Option Nat
  | [] => none
  | b :: rest =>
    if b.netID = netID ∧ goToLower b.title = lTitle then some 0
    else (findBufIdx netID lTitle rest).map (· + 1)

/-- src/ui/buffers.go `BufferList.at` (lines 525-536): Go returns an index
and a possibly-nil `*buffer`; the pointer is modelled as an optional `Loc`.
For ("", Overlay) it returns the overlay pointer — nil when no overlay is
open — without scanning the list. -/
def BufferList.at_ (bs : BufferList) (netID title : String) :
    Int × Option Loc :=
  if netID = "" ∧ title = Overlay then
    (-1, if bs.overlay.isSome then some .ovl else none)
  else
    match findBufIdx netID (goToLower title) bs.list with
    | some i => ((i : Int), some (.idx i))
    | none => (-1, none)

/-- Read the buffer a `Loc` points at. -/
def BufferList.getBuf (bs : BufferList) : Loc → Option Buffer
  | .ovl => bs.overlay
  | .idx i => bs.list.get? i

/-- Write through a buffer pointer. -/
def BufferList.setBuf (bs : BufferList) : Loc → Buffer → BufferList
  | .ovl, b => { bs with overlay := some b }
  | .idx i, b => { bs with list := bs.list.set i b }

/-- src/ui/buffers.go `BufferList.cur` (lines 538-543): the overlay when
open, else `&bs.list[bs.current]`; `none` models the Go index panic when
`current` is out of range. -/
def BufferList.curLoc (bs : BufferList) : Option Loc :=
  if bs.overlay.isSome then some .ovl
  else if 0 ≤ bs.current ∧ bs.current < (bs.list.length : Int) then
    some (.idx bs.current.toNat)
  else none

/-- src/ui/buffers.go `BufferList.mergeLine` (lines 343-351): run the merge
callback (`App.mergeLine`); when the merged body is empty report that the
line must be dropped, otherwise invalidate the wrap cache and recompute the
split points. -/
def BufferList.mergeLine (rw : Char → Nat) (former : Line) (addition : Line) :
    Bool × Line :=
  let f := Kouhai.mergeLine former addition
  if f.body.str = "" then (false, f)
  else
    (true, { f with width := 0, splitPoints := computeSplitPoints rw f.body.str })

/-- The separator line `AddLine` appends: the zero line with the current
time and a red "---" body (src/ui/buffers.go lines 368-371). -/
def sepLine (now : GoTime) : Line :=
  { zeroLine with at_ := now, body := styled "---" .colorRed }

/-- src/ui/buffers.go `AddLine`, line 363-365: URL spans are parsed into a
non-mergeable line's body when the current buffer has been opened once.
`pu` models `StyledString.ParseURLs` (ui/style.go, not among the sources;
per the spec it only adds spans, so it is a parameter). -/
def addLinePrepare (pu : StyledString → StyledString) (curOpenedOnce : Bool)
    (line : Line) : Line :=
  if ¬ line.mergeable ∧ curOpenedOnce then { line with body := pu line.body }
  else line

/-- src/ui/buffers.go `AddLine`, lines 367-373: append the unread separator
and mark the buffer unread when the condition holds. -/
def addLineSep (now : GoTime) (doSep : Prop) [Decidable doSep] (b : Buffer) :
    Buffer :=
  if doSep then { b with lines := b.lines ++ [sepLine now], unread := true }
  else b

/-- src/ui/buffers.go `AddLine`, lines 375-387: merge the incoming line into
the line at index n-1 (the last line before the separator step, still at the
same index afterwards) when both are mergeable, dropping down to n-1 lines
when the merge empties the body; otherwise compute the split points and
append, keeping the viewport stable when the buffer is current and scrolled
up. -/
def addLineBody (rw : Char → Nat) (tlw : Int) (isCur : Prop) [Decidable isCur]
    (n : Nat) (line : Line) (b : Buffer) : Buffer :=
  if line.mergeable ∧ n ≠ 0 ∧
      ((b.lines.get? (n - 1)).map (·.mergeable)).getD false then
    match b.lines.get? (n - 1) with
    | some former =>
      let km := BufferList.mergeLine rw former line
      if km.1 then { b with lines := b.lines.set (n - 1) km.2 }
      else { b with lines := b.lines.take (n - 1) }
    | none => b
  else
    let line := { line with splitPoints := computeSplitPoints rw line.body.str }
    let b := { b with lines := b.lines ++ [line] }
    if isCur ∧ 0 < b.scrollAmt then
      { b with scrollAmt := b.scrollAmt +
          ((Line.NewLines rw line tlw).2.length : Int) + 1 }
    else b

/-- src/ui/buffers.go `AddLine`, lines 389-391: count a highlight on a
non-current buffer. -/
def addLineHighlight (doInc : Prop) [Decidable doInc] (b : Buffer) : Buffer :=
  if doInc then { b with highlights := b.highlights + 1 } else b

/-- src/ui/buffers.go `BufferList.AddLine` (lines 353-392), as the sequence
of its phases. `now` models `time.Now()` for the separator line; the
`line.At.UTC()` normalization is the identity on instants. `none` models the
Go panic of `bs.cur()` when no overlay is open and `current` is out of
range. -/
def BufferList.AddLine (rw : Char → Nat) (pu : StyledString → StyledString)
    (bs : BufferList) (netID title : String) (notify : NotifyType)
    (line : Line) (now : GoTime) : Option BufferList :=
  match (bs.at_ netID title).2 with
  | none => some bs
  | some bLoc =>
    match bs.curLoc with
    | none => none
    | some cLoc =>
      match bs.getBuf bLoc, bs.getBuf cLoc with
      | some b, some cur =>
        let n := b.lines.length
        let pl := addLinePrepare pu cur.openedOnce line
        let b1 := addLineSep now
          (notify ≠ .notifyNone ∧ bLoc ≠ cLoc ∧ b.unread = false) b
        let b2 := addLineBody rw bs.tlInnerWidth (bLoc = cLoc) n pl b1
        let b3 := addLineHighlight (notify = .notifyHighlight ∧ bLoc ≠ cLoc) b2
        some (bs.setBuf bLoc b3)
      | _, _ => none

/-- One step of the `AddLines` accumulation (src/ui/buffers.go lines
400-418): merge into the accumulator's last line when both are mergeable
(dropping it when the merge empties the body), otherwise append — preparing
the line (URL spans when the buffer was opened once, then split points)
unless it comes from the buffer's own existing lines. -/
def addLinesStep (rw : Char → Nat) (pu : StyledString → StyledString)
    (openedOnce : Bool) (isOwn : Bool) (acc : List Line) (line : Line) :
    List Line :=
  if line.mergeable ∧ acc.length > 0 ∧
      ((acc.getLast?).map (·.mergeable)).getD false then
    match acc.getLast? with
    | some former =>
      let km := BufferList.mergeLine rw former line
      if km.1 then acc.dropLast ++ [km.2] else acc.dropLast
    | none => acc
  else
    let line :=
      if isOwn then line
      else
        let line :=
          if openedOnce then { line with body := pu line.body } else line
        { line with splitPoints := computeSplitPoints rw line.body.str }
    acc ++ [line]

/-- src/ui/buffers.go `BufferList.AddLines` (lines 394-420): rebuild the
buffer's lines from `before`, the existing lines, and `after`, merging at
every seam. -/
def BufferList.AddLines (rw : Char → Nat) (pu : StyledString → StyledString)
    (bs : BufferList) (netID title : String) (before after : List Line) :
    BufferList :=
  match (bs.at_ netID title).2 with
  | none => bs
  | some bLoc =>
    match bs.getBuf bLoc with
    | some b =>
      let acc := before.foldl (addLinesStep rw pu b.openedOnce false) []
      let acc := b.lines.foldl (addLinesStep rw pu b.openedOnce true) acc
      let acc := after.foldl (addLinesStep rw pu b.openedOnce false) acc
      bs.setBuf bLoc { b with lines := acc }
    | none => bs

/-- src/ui/buffers.go `BufferList.To` (lines 246-261): close the overlay; a
negative index or the current index changes nothing; otherwise clamp to the
last buffer, focus it and clear its highlight count and unread flag. `none`
models the Go index panic (empty list). Returns whether the focus moved. -/
def BufferList.To (bs : BufferList) (i : Int) : Option (BufferList × Bool) :=
  let bs := { bs with overlay := none }
  if i = bs.current then some (bs, false)
  else if 0 ≤ i then
    let c := if (bs.list.length : Int) ≤ i then (bs.list.length : Int) - 1 else i
    match bs.list.get? c.toNat with
    | some b =>
      some ({ bs with
          current := c,
          list := bs.list.set c.toNat { b with highlights := 0, unread := false } },
        true)
    | none => none
  else some (bs, false)

/-- src/ui/buffers.go `BufferList.Next` (lines 267-273): close the overlay,
advance cyclically, clear the new current buffer's counters. Go `%` is
truncated division (`Int.tmod`); `none` models the panics (mod by zero on an
empty list, or indexing with a negative result). -/
def BufferList.Next (bs : BufferList) : Option BufferList :=
  if bs.list.length = 0 then none
  else
    let bs := { bs with overlay := none }
    let c := (bs.current + 1).tmod (bs.list.length : Int)
    if 0 ≤ c then
      match bs.list.get? c.toNat with
      | some b =>
        some { bs with
            current := c,
            list := bs.list.set c.toNat { b with highlights := 0, unread := false } }
      | none => none
    else none

/-- src/ui/buffers.go `BufferList.Previous` (lines 275-281). -/
def BufferList.Previous (bs : BufferList) : Option BufferList :=
  if bs.list.length = 0 then none
  else
    let bs := { bs with overlay := none }
    let c := (bs.current - 1 + (bs.list.length : Int)).tmod (bs.list.length : Int)
    if 0 ≤ c then
      match bs.list.get? c.toNat with
      | some b =>
        some { bs with
            current := c,
            list := bs.list.set c.toNat { b with highlights := 0, unread := false } }
      | none => none
    else none

/-- The scan result of `BufferList.Add`: a duplicate at the returned index,
or the insertion index together with the (possibly inherited) netName. -/
inductive ScanRes
  | dup (i : Nat)
  | ins (i : Nat) (netName : String)
deriving DecidableEq, Repr

/-- The scan loop of `BufferList.Add` (lines 284-306): `i` advances past
every buffer the new one sorts after; an empty netName is inherited from the
first buffer with the same netID; equal netName and case-folded title is a
duplicate. Go compares netNames byte-wise — which on UTF-8 is code-point
order, Lean's `String` order — and titles case-folded. -/
def addScan (netID : String) : String → String → List Buffer → ScanRes
  | netName, _, [] => .ins 0 netName
  | netName, lTitle, b :: rest =>
    let netName := if netName = "" ∧ b.netID = netID then b.netName else netName
    if netName = "" ∨ b.netName < netName then
      match addScan netID netName lTitle rest with
      | .dup i => .dup (i + 1)
      | .ins i n => .ins (i + 1) n
    else if netName < b.netName then .ins 0 netName
    else if goToLower b.title < lTitle then
      match addScan netID netName lTitle rest with
      | .dup i => .dup (i + 1)
      | .ins i n => .ins (i + 1) n
    else if goToLower b.title = lTitle then .dup 0
    else .ins 0 netName

/-- src/ui/buffers.go `BufferList.Add` (lines 283-324): insert a new buffer
at its scan position, bumping `current` to keep the focused buffer stable,
or report the index of an existing duplicate. -/
def BufferList.Add (bs : BufferList) (netID netName title : String) :
    BufferList × Nat × Bool :=
  match addScan netID netName (goToLower title) bs.list with
  | .dup i => (bs, i, false)
  | .ins i n =>
    let current :=
      if (i : Int) ≤ bs.current ∧ bs.current < (bs.list.length : Int) then
        bs.current + 1
      else bs.current
    ({ bs with
        list := bs.list.take i ++ newBuffer netID n title :: bs.list.drop i,
        current := current },
      i, true)

/-- src/ui/buffers.go `BufferList.Remove` (lines 326-341). Go first compares
the found pointer with `bs.overlay` (a nil result equals a nil overlay, so
an unknown buffer with the overlay closed also takes the overlay branch),
then removes the buffer and pulls `current` back when it fell off the end. -/
def BufferList.Remove (bs : BufferList) (netID title : String) :
    BufferList × Bool :=
  let r := bs.at_ netID title
  let bEqOverlay :=
    match r.2, bs.overlay with
    | some .ovl, some _ => true
    | none, none => true
    | _, _ => false
  if bEqOverlay then ({ bs with overlay := none }, false)
  else if r.1 < 0 then (bs, false)
  else
    let list := bs.list.eraseIdx r.1.toNat
    let current :=
      if (list.length : Int) ≤ bs.current then bs.current - 1 else bs.current
    ({ bs with list := list, current := current }, true)

/-- The sort key `BufferList.Add` maintains: the raw netName (Go compares
netNames byte-wise) and the case-folded title. -/
def bufKey (b : Buffer) : String × String := (b.netName, goToLower b.title)

/-- Strict lexicographic order on sort keys. -/
def keyLt (a b : String × String) : Prop :=
  a.1 < b.1 ∨ (a.1 = b.1 ∧ a.2 < b.2)

instance (a b : String × String) : Decidable (keyLt a b) := by
  unfold keyLt
  infer_instance

/-- The ordering invariant the code maintains: buffers strictly ascending by
(netName byte order, case-folded title). -/
def sortedBuffers (l : List Buffer) : Prop :=
  List.Pairwise (fun a b => keyLt (bufKey a) (bufKey b)) l

/-- The ordering the claim asserts, written from its words: adjacent buffers
in non-decreasing order by netName ascending case-insensitively, then title
ascending case-insensitively. -/
def specSortedCI : List Buffer → Bool
  | [] => true
  | [_] => true
  | a :: b :: rest =>
    (decide (goToLower a.netName < goToLower b.netName) ||
      (goToLower a.netName == goToLower b.netName &&
        decide (goToLower a.title ≤ goToLower b.title))) &&
      specSortedCI (b :: rest)

/-- An Add or Remove call, for stating the invariant over call sequences. -/
inductive BufOp
  | add (netID netName title : String)
  | remove (netID title : String)
deriving DecidableEq, Repr

/-- Apply one Add or Remove call to the buffer list. -/
def applyOp (bs : BufferList) : BufOp → BufferList
  | .add netID netName title => (bs.Add netID netName title).1
  | .remove netID title => (bs.Remove netID title).1

/-- Apply a call sequence to a fresh buffer list (`NewBufferList`). -/
def applyOps (ops : List BufOp) : BufferList := ops.foldl applyOp NewBufferList

/-- An Add call that supplies a non-empty netName (Remove is unrestricted). -/
def opNetNameOk : BufOp → Prop
  | .add _ netName _ => netName ≠ ""
  | .remove _ _ => True

instance (op : BufOp) : Decidable (opNetNameOk op) := by
  cases op <;> unfold opNetNameOk <;> infer_instance

/-- Looking a key up right after inserting it finds the inserted value. -/
theorem mapLookup_insert_self {α : Type} (k : String) (v : α)
    (m : List (String × α)) : mapLookup k (mapInsert k v m) = some v := by
  unfold mapInsert mapLookup
  rw [if_pos rfl]

/-- String append is associative (on the underlying character lists). -/
theorem string_append_assoc (a b c : String) : a ++ b ++ c = a ++ (b ++ c) := by
  apply String.ext
  simp

/-- `get?` only succeeds below the length. -/
theorem list_get?_some_lt {α : Type} {l : List α} {i : Nat} {a : α}
    (h : l.get? i = some a) : i < l.length := by
  induction l generalizing i with
  | nil => simp [List.get?] at h
  | cons x xs ih =>
    cases i with
    | zero => simp
    | succ j =>
      simp only [List.get?] at h
      exact Nat.succ_lt_succ (ih h)

/-- Reading an index just written returns the written value. -/
theorem list_get?_set_self {α : Type} (l : List α) (i : Nat) (a : α)
    (h : i < l.length) : (l.set i a).get? i = some a := by
  induction l generalizing i with
  | nil => simp at h
  | cons x xs ih =>
    cases i with
    | zero => rfl
    | succ j =>
      simp only [List.set, List.get?]
      exact ih j (by simpa using h)

/-- A successful `cur()` names a buffer that exists. -/
theorem getBuf_of_curLoc (bs : BufferList) (cLoc : Loc)
    (h : bs.curLoc = some cLoc) : ∃ c, bs.getBuf cLoc = some c := by
  unfold BufferList.curLoc at h
  by_cases ho : bs.overlay.isSome
  · rw [if_pos ho] at h
    injection h with h
    subst h
    cases hov : bs.overlay with
    | some o => exact ⟨o, by simp [BufferList.getBuf, hov]⟩
    | none => rw [hov] at ho; simp at ho
  · rw [if_neg ho] at h
    by_cases hin : 0 ≤ bs.current ∧ bs.current < (bs.list.length : Int)
    · rw [if_pos hin] at h
      injection h with h
      subst h
      have hlt : bs.current.toNat < bs.list.length := by omega
      exact ⟨_, List.get?_eq_get hlt⟩
    · rw [if_neg hin] at h
      exact absurd h (by simp)

/-- Writing through a valid buffer pointer is visible through it. -/
theorem getBuf_setBuf_self (bs : BufferList) (loc : Loc) (b b' : Buffer)
    (h : bs.getBuf loc = some b) :
    (bs.setBuf loc b').getBuf loc = some b' := by
  cases loc with
  | ovl => simp [BufferList.getBuf, BufferList.setBuf]
  | idx i =>
    simp only [BufferList.getBuf, BufferList.setBuf] at h ⊢
    exact list_get?_set_self _ _ _ (list_get?_some_lt h)

/-- The separator phase never touches the highlight count. -/
theorem addLineSep_highlights (now : GoTime) (p : Prop) [Decidable p]
    (b : Buffer) : (addLineSep now p b).highlights = b.highlights := by
  unfold addLineSep
  split <;> rfl

/-- The merge-or-append phase never touches the highlight count. -/
theorem addLineBody_highlights (rw : Char → Nat) (tlw : Int) (p : Prop)
    [Decidable p] (n : Nat) (line : Line) (b : Buffer) :
    (addLineBody rw tlw p n line b).highlights = b.highlights := by
  unfold addLineBody
  split
  · split
    · dsimp only
      split <;> rfl
    · rfl
  · dsimp only
    split <;> rfl

/-- The merge-or-append phase never touches the unread flag. -/
theorem addLineBody_unread (rw : Char → Nat) (tlw : Int) (p : Prop)
    [Decidable p] (n : Nat) (line : Line) (b : Buffer) :
    (addLineBody rw tlw p n line b).unread = b.unread := by
  unfold addLineBody
  split
  · split
    · dsimp only
      split <;> rfl
    · rfl
  · dsimp only
    split <;> rfl

/-- The highlight phase increments exactly when its condition holds. -/
theorem addLineHighlight_pos (p : Prop) [Decidable p] (hp : p) (b : Buffer) :
    (addLineHighlight p b).highlights = b.highlights + 1 := by
  unfold addLineHighlight
  rw [if_pos hp]

/-- The highlight phase never touches the lines. -/
theorem addLineHighlight_lines (p : Prop) [Decidable p] (b : Buffer) :
    (addLineHighlight p b).lines = b.lines := by
  unfold addLineHighlight
  split <;> rfl

/-- The highlight phase never touches the unread flag. -/
theorem addLineHighlight_unread (p : Prop) [Decidable p] (b : Buffer) :
    (addLineHighlight p b).unread = b.unread := by
  unfold addLineHighlight
  split <;> rfl

/-- Appending on the right does not change entries below the length. -/
theorem list_get?_append_left {α : Type} (l : List α) (x : α) (n : Nat)
    (h : n < l.length) : (l ++ [x]).get? n = l.get? n := by
  induction l generalizing n with
  | nil => simp at h
  | cons y ys ih =>
    cases n with
    | zero => rfl
    | succ m => exact ih m (by simpa using h)

/-- Taking at most the left part of an append ignores the right part. -/
theorem list_take_append_left {α : Type} (l : List α) (x : α) (n : Nat)
    (h : n ≤ l.length) : (l ++ [x]).take n = l.take n := by
  induction l generalizing n with
  | nil =>
    cases n with
    | zero => rfl
    | succ m => simp at h
  | cons y ys ih =>
    cases n with
    | zero => rfl
    | succ m => simp [ih m (by simpa using h)]

theorem keyLt_inl {a b : String × String} (h : a.1 < b.1) : keyLt a b :=
  Or.inl h

theorem keyLt_inr {a b : String × String} (h1 : a.1 = b.1) (h2 : a.2 < b.2) :
    keyLt a b :=
  Or.inr ⟨h1, h2⟩

theorem keyLt_trans {a b c : String × String} (h1 : keyLt a b)
    (h2 : keyLt b c) : keyLt a c := by
  rcases h1 with h1 | ⟨e1, t1⟩ <;> rcases h2 with h2 | ⟨e2, t2⟩
  · exact Or.inl (lt_trans h1 h2)
  · exact Or.inl (e2 ▸ h1)
  · exact Or.inl (e1 ▸ h2)
  · exact Or.inr ⟨e1.trans e2, lt_trans t1 t2⟩

/-- With a non-empty netName the scan never changes it. -/
theorem addScan_netName (netID : String) (netName lTitle : String)
    (hne : netName ≠ "") :
    ∀ (l : List Buffer) {i : Nat} {n : String},
      addScan netID netName lTitle l = .ins i n → n = netName := by
  intro l
  induction l with
  | nil =>
    intro i n h
    cases h
    rfl
  | cons b rest ih =>
    intro i n h
    unfold addScan at h
    dsimp only at h
    have hinh : (if netName = "" ∧ b.netID = netID then b.netName else netName)
        = netName := if_neg fun hh => hne hh.1
    rw [hinh] at h
    by_cases h1 : netName = "" ∨ b.netName < netName
    · rw [if_pos h1] at h
      cases hsc : addScan netID netName lTitle rest with
      | dup j => rw [hsc] at h; cases h
      | ins j m =>
        rw [hsc] at h
        cases h
        exact ih hsc
    · rw [if_neg h1] at h
      by_cases h2 : netName < b.netName
      · rw [if_pos h2] at h
        cases h
        rfl
      · rw [if_neg h2] at h
        by_cases h3 : goToLower b.title < lTitle
        · rw [if_pos h3] at h
          cases hsc : addScan netID netName lTitle rest with
          | dup j => rw [hsc] at h; cases h
          | ins j m =>
            rw [hsc] at h
            cases h
            exact ih hsc
        · rw [if_neg h3] at h
          by_cases h4 : goToLower b.title = lTitle
          · rw [if_pos h4] at h
            cases h
          · rw [if_neg h4] at h
            cases h
            rfl

/-- With a non-empty netName, inserting at the scan position keeps the list
strictly sorted by key. `nb` is the buffer being inserted. -/
theorem addScan_sorted (netID netName lTitle : String) (hne : netName ≠ "")
    (nb : Buffer) (hkey : bufKey nb = (netName, lTitle)) :
    ∀ (l : List Buffer), sortedBuffers l →
      ∀ {i : Nat} {n : String}, addScan netID netName lTitle l = .ins i n →
      sortedBuffers (l.take i ++ nb :: l.drop i) := by
  have hk1 : (bufKey nb).1 = netName := by rw [hkey]
  have hk2 : (bufKey nb).2 = lTitle := by rw [hkey]
  intro l
  induction l with
  | nil =>
    intro _ i n h
    cases h
    exact List.Pairwise.cons (by simp) List.Pairwise.nil
  | cons b rest ih =>
    intro hs i n h
    have hb : ∀ r ∈ rest, keyLt (bufKey b) (bufKey r) :=
      (List.pairwise_cons.mp hs).1
    have hrest : sortedBuffers rest := (List.pairwise_cons.mp hs).2
    unfold addScan at h
    dsimp only at h
    have hinh : (if netName = "" ∧ b.netID = netID then b.netName else netName)
        = netName := if_neg fun hh => hne hh.1
    rw [hinh] at h
    by_cases h1 : netName = "" ∨ b.netName < netName
    · rw [if_pos h1] at h
      have hlt : b.netName < netName := h1.resolve_left hne
      cases hsc : addScan netID netName lTitle rest with
      | dup j => rw [hsc] at h; cases h
      | ins j m =>
        rw [hsc] at h
        cases h
        simp only [List.take_succ_cons, List.drop_succ_cons]
        refine List.pairwise_cons.mpr ⟨?_, ih hrest hsc⟩
        intro x hx
        rcases List.mem_append.mp hx with hx | hx
        · exact hb x (List.take_subset _ _ hx)
        · rcases List.mem_cons.mp hx with hx | hx
          · subst hx
            refine keyLt_inl ?_
            rw [hk1]
            exact hlt
          · exact hb x (List.drop_subset _ _ hx)
    · rw [if_neg h1] at h
      have hge : netName ≤ b.netName := not_lt.mp fun hh => h1 (Or.inr hh)
      by_cases h2 : netName < b.netName
      · rw [if_pos h2] at h
        cases h
        refine List.pairwise_cons.mpr ⟨?_, hs⟩
        intro x hx
        have hnb : keyLt (bufKey nb) (bufKey b) := by
          refine keyLt_inl ?_
          rw [hk1]
          exact h2
        rcases List.mem_cons.mp hx with hx | hx
        · subst hx
          exact hnb
        · exact keyLt_trans hnb (hb x hx)
      · rw [if_neg h2] at h
        have heq : b.netName = netName := le_antisymm (not_lt.mp h2) hge
        by_cases h3 : goToLower b.title < lTitle
        · rw [if_pos h3] at h
          cases hsc : addScan netID netName lTitle rest with
          | dup j => rw [hsc] at h; cases h
          | ins j m =>
            rw [hsc] at h
            cases h
            simp only [List.take_succ_cons, List.drop_succ_cons]
            refine List.pairwise_cons.mpr ⟨?_, ih hrest hsc⟩
            intro x hx
            rcases List.mem_append.mp hx with hx | hx
            · exact hb x (List.take_subset _ _ hx)
            · rcases List.mem_cons.mp hx with hx | hx
              · subst hx
                refine keyLt_inr ?_ ?_
                · rw [hk1]
                  exact heq
                · rw [hk2]
                  exact h3
              · exact hb x (List.drop_subset _ _ hx)
        · rw [if_neg h3] at h
          by_cases h4 : goToLower b.title = lTitle
          · rw [if_pos h4] at h
            cases h
          · rw [if_neg h4] at h
            cases h
            have h5 : lTitle < goToLower b.title :=
              lt_of_le_of_ne (not_lt.mp h3) fun e => h4 e.symm
            refine List.pairwise_cons.mpr ⟨?_, hs⟩
            intro x hx
            have hnb : keyLt (bufKey nb) (bufKey b) := by
              refine keyLt_inr ?_ ?_
              · rw [hk1]
                exact heq.symm
              · rw [hk2]
                exact h5
            rcases List.mem_cons.mp hx with hx | hx
            · subst hx
              exact hnb
            · exact keyLt_trans hnb (hb x hx)

/-- `Add` with a non-empty netName preserves the sort invariant. -/
theorem Add_sorted (bs : BufferList) (netID netName title : String)
    (hne : netName ≠ "") (hs : sortedBuffers bs.list) :
    sortedBuffers (bs.Add netID netName title).1.list := by
  unfold BufferList.Add
  cases hscan : addScan netID netName (goToLower title) bs.list with
  | dup i => exact hs
  | ins i n =>
    dsimp only
    have hn := addScan_netName netID netName (goToLower title) hne bs.list hscan
    subst hn
    exact addScan_sorted netID n (goToLower title) hne
      (newBuffer netID n title) rfl bs.list hs hscan

/-- `Remove` preserves the sort invariant. -/
theorem Remove_sorted (bs : BufferList) (netID title : String)
    (hs : sortedBuffers bs.list) :
    sortedBuffers (bs.Remove netID title).1.list := by
  unfold BufferList.Remove
  dsimp only
  split
  · exact hs
  · split
    · exact hs
    · exact List.Pairwise.sublist (List.eraseIdx_sublist _ _) hs

/-- An unmatched (netID, title) scans to no index. -/
theorem findBufIdx_eq_none (netID lTitle : String) (l : List Buffer)
    (h : ∀ b ∈ l, ¬(b.netID = netID ∧ goToLower b.title = lTitle)) :
    findBufIdx netID lTitle l = none := by
  induction l with
  | nil => rfl
  | cons x xs ih =>
    unfold findBufIdx
    rw [if_neg (h x (by simp)), ih fun b hb => h b (by simp [hb])]
    rfl

/-- `at` returns a nil pointer for a pair that matches no buffer and is not
the open overlay. -/
theorem at_none_of_unknown (bs : BufferList) (netID title : String)
    (hmatch : ∀ b ∈ bs.list,
      ¬(b.netID = netID ∧ goToLower b.title = goToLower title))
    (hovl : ¬(netID = "" ∧ title = Overlay ∧ bs.overlay.isSome = true)) :
    (bs.at_ netID title).2 = none := by
  unfold BufferList.at_
  by_cases h1 : netID = "" ∧ title = Overlay
  · rw [if_pos h1]
    have hno : bs.overlay.isSome = false := by
      cases ho : bs.overlay.isSome
      · rfl
      · exact absurd ⟨h1.1, h1.2, ho⟩ hovl
    rw [hno]
    simp
  · rw [if_neg h1, findBufIdx_eq_none _ _ _ hmatch]

/-- `NewLines` with the cached width returns the cache and leaves the line
unchanged. -/
theorem NewLines_width_eq (rw : Char → Nat) (l : Line) (w : Int)
    (h : l.width = w) : Line.NewLines rw l w = (l, l.newLines) := by
  unfold Line.NewLines
  rw [if_pos h]

/-- `NewLines` with a different width recomputes and stores the result. -/
theorem NewLines_width_ne (rw : Char → Nat) (l : Line) (w : Int)
    (h : ¬ l.width = w) :
    Line.NewLines rw l w =
      ({ l with
          width := w,
          newLines := newLinesCompute rw l.body.str l.splitPoints w },
        newLinesCompute rw l.body.str l.splitPoints w) := by
  unfold Line.NewLines
  rw [if_neg h]

/-- After any `NewLines` call the line caches the requested width and the
returned vector, and keeps its body and split points. -/
theorem NewLines_fst_spec (rw : Char → Nat) (l : Line) (w : Int) :
    ((Line.NewLines rw l w).1).width = w ∧
    ((Line.NewLines rw l w).1).newLines = (Line.NewLines rw l w).2 ∧
    ((Line.NewLines rw l w).1).body = l.body ∧
    ((Line.NewLines rw l w).1).splitPoints = l.splitPoints := by
  by_cases h : l.width = w
  · rw [NewLines_width_eq rw l w h]
    exact ⟨h, rfl, rfl, rfl⟩
  · rw [NewLines_width_ne rw l w h]
    exact ⟨rfl, rfl, rfl, rfl⟩

/-- A registered session where user "u" is a member of #a (with "v") but not
of #b; used to evaluate the QUIT case. -/
def c1Session : Session :=
  ⟨true, [], "me", "me", "usr", "real", "", "host", [], [], [], [],
    [("#a", ⟨"#a", [("u", ""), ("v", "@")], "", "", ⟨0⟩, false⟩),
     ("#b", ⟨"#b", [("v", "")], "", "", ⟨0⟩, false⟩)]⟩

/-- A session with `message-tags` enabled and no typing stamps; used to
evaluate the typing rate limit. -/
def c5Session : Session :=
  ⟨true, [], "me", "me", "usr", "real", "", "host", [], ["message-tags"],
    [], [], []⟩

/-- A two-buffer list (home and #x on network n) focused on the home buffer;
used to evaluate the highlight counter and the focus reset. -/
def c6Bs : BufferList :=
  ⟨[newBuffer "n" "net" "", newBuffer "n" "net" "#x"], none, 0, -1, 80, 24,
    false⟩

/-- A plain readable message line for the highlight counter evaluation. -/
def c6Line : Line := { zeroLine with body := plainString "hi", readable := true }

/-- The state after adding a highlight line to #x while home is focused. -/
def c6Res : BufferList :=
  match BufferList.AddLine (fun _ => 1) id c6Bs "n" "#x" .notifyHighlight
      c6Line ⟨9⟩ with
  | some r => r
  | none => NewBufferList

/-- The state after focusing #x via To(1). -/
def c6ToRes : BufferList :=
  match c6Bs.To 1 with
  | some r => r.1
  | none => NewBufferList

/-- A line whose split points were computed for its body, as `AddLine` does;
used to evaluate the wrap cache. -/
def c8Line : Line :=
  { zeroLine with
      body := plainString "ab cd",
      splitPoints := computeSplitPoints (fun _ => 1) "ab cd" }

/-- A two-buffer list focused on buffer "a", where buffer "b" holds a single
mergeable join line by user "u"; used to exercise the separator logic. -/
def c9Bs : BufferList :=
  ⟨[newBuffer "n" "net" "a",
    { newBuffer "n" "net" "b" with
        lines := [formatEvent (.userJoin "u" ⟨1⟩)] }],
    none, 0, -1, 80, 24, false⟩

/-- The target buffer of the separator scenarios. -/
def c9BufB : Buffer :=
  { newBuffer "n" "net" "b" with lines := [formatEvent (.userJoin "u" ⟨1⟩)] }

/-- A one-buffer list; used to evaluate the unknown-buffer no-op. -/
def c10Bs : BufferList := ⟨[newBuffer "n" "net" "#x"], none, 0, -1, 0, 0, false⟩

/-! ## Theorems -/

/-- C2 counterexample: merging a nick change alice→bob into a nick change
bob→alice does NOT yield an empty body — the flow analysis has no hide rule
for nick round-trips, so both changes stay visible and the merged body is
"alice→bob  bob→alice". The claim says this merge yields an empty body. -/
theorem c2_nick_roundtrip_merge_not_empty :
    (mergeLine (formatEvent (.userNick "alice" "bob" ⟨1⟩))
      (formatEvent (.userNick "bob" "alice" ⟨2⟩))).body.str =
      "alice→bob  bob→alice" ∧
    ("alice→bob  bob→alice" : String) ≠ "" := by
  refine ⟨by decide, by decide⟩

/-- C2 (amended): merging a join by U into a part by U yields an empty
visible body (so the merged line is dropped); merging a nick change A→B
followed by B→A yields a body rendering BOTH nick changes (not an empty
body); and merging a join, a part and a join by U yields a body rendering a
single join. -/
theorem c2_merge_collapse_amended (u a b : String) (t1 t2 t3 : GoTime) :
    (mergeLine (formatEvent (.userJoin u t1)) (formatEvent (.userPart u t2))).body.str
      = "" ∧
    (mergeLine (formatEvent (.userNick a b t1)) (formatEvent (.userNick b a t2))).body.str
      = a ++ "→" ++ b ++ "  " ++ b ++ "→" ++ a ∧
    (mergeLine (mergeLine (formatEvent (.userJoin u t1)) (formatEvent (.userPart u t2)))
        (formatEvent (.userJoin u t3))).body.str = "+" ++ u := by
  refine ⟨?_, ?_, ?_⟩ <;>
    simp [mergeLine, renderEvents, flowAnalyze, flowStep, formatEvent,
      mapLookup, mapInsert, mapErase, Builder.write, Builder.writeStyled,
      Builder.setStyle, Builder.addStyle, Builder.styledString,
      string_append_assoc, String.empty_append, String.append_empty]

/-- C8: for any rune-width function, line and width W, calling NewLines(W)
twice in a row returns the same wrap indices — the second call returns the
cached vector and leaves the line unchanged — and calling NewLines with a
width W' ≠ W recomputes the indices for W' (the fresh computation over the
line's body and split points) rather than returning the stale cache. -/
theorem c8_newlines_cache (rw : Char → Nat) (l : Line) (w w' : Int)
    (hne : w' ≠ w) :
    (Line.NewLines rw (Line.NewLines rw l w).1 w).2 = (Line.NewLines rw l w).2 ∧
    (Line.NewLines rw (Line.NewLines rw l w).1 w).1 = (Line.NewLines rw l w).1 ∧
    (Line.NewLines rw (Line.NewLines rw l w).1 w').2 =
      newLinesCompute rw l.body.str l.splitPoints w' := by
  obtain ⟨hw, hnl, hb, hsp⟩ := NewLines_fst_spec rw l w
  have h2 := NewLines_width_eq rw (Line.NewLines rw l w).1 w hw
  have h3 := NewLines_width_ne rw (Line.NewLines rw l w).1 w'
    (fun hh => hne (hh ▸ hw))
  refine ⟨?_, ?_, ?_⟩
  · rw [h2]
    exact hnl
  · rw [h2]
  · rw [h3, hb, hsp]

/-- C8 witness: the cache behaviour evaluated on a concrete line at widths 4
and 3. -/
theorem c8_newlines_cache_witness :
    (3 : Int) ≠ 4 ∧
    ((Line.NewLines (fun _ => 1) (Line.NewLines (fun _ => 1) c8Line 4).1 4).2 =
        (Line.NewLines (fun _ => 1) c8Line 4).2 ∧
      (Line.NewLines (fun _ => 1) (Line.NewLines (fun _ => 1) c8Line 4).1 4).1 =
        (Line.NewLines (fun _ => 1) c8Line 4).1 ∧
      (Line.NewLines (fun _ => 1) (Line.NewLines (fun _ => 1) c8Line 4).1 3).2 =
        newLinesCompute (fun _ => 1) c8Line.body.str c8Line.splitPoints 3) :=
  ⟨by decide, c8_newlines_cache (fun _ => 1) c8Line 4 3 (by decide)⟩

/-- C6: AddLine with Highlight notify on an existing buffer that is not the
current one increments that buffer's highlight count by exactly one; and
whenever To(i) moves the focus — and whenever Next or Previous runs — the
newly current buffer's highlight count is zero and its unread flag false. -/
theorem c6_highlight_count_and_focus_reset :
    (∀ (rw : Char → Nat) (pu : StyledString → StyledString) (bs : BufferList)
        (netID title : String) (line : Line) (now : GoTime)
        (bLoc cLoc : Loc) (b : Buffer) (bs' : BufferList),
      (bs.at_ netID title).2 = some bLoc →
      bs.curLoc = some cLoc →
      bLoc ≠ cLoc →
      bs.getBuf bLoc = some b →
      BufferList.AddLine rw pu bs netID title .notifyHighlight line now =
        some bs' →
      (bs'.getBuf bLoc).map (·.highlights) = some (b.highlights + 1)) ∧
    (∀ (bs : BufferList) (i : Int) (bs' : BufferList),
      bs.To i = some (bs', true) →
      ∃ b, bs'.list.get? bs'.current.toNat = some b ∧
        b.highlights = 0 ∧ b.unread = false) ∧
    (∀ bs bs' : BufferList, bs.Next = some bs' →
      ∃ b, bs'.list.get? bs'.current.toNat = some b ∧
        b.highlights = 0 ∧ b.unread = false) ∧
    (∀ bs bs' : BufferList, bs.Previous = some bs' →
      ∃ b, bs'.list.get? bs'.current.toNat = some b ∧
        b.highlights = 0 ∧ b.unread = false) := by
  refine ⟨?_, ?_, ?_, ?_⟩
  · intro rw pu bs netID title line now bLoc cLoc b bs' hat hcur hne hb hAdd
    obtain ⟨c, hc⟩ := getBuf_of_curLoc bs cLoc hcur
    unfold BufferList.AddLine at hAdd
    rw [hat, hcur] at hAdd
    dsimp only at hAdd
    rw [hb, hc] at hAdd
    dsimp only at hAdd
    injection hAdd with hAdd
    subst hAdd
    rw [getBuf_setBuf_self bs bLoc b _ hb]
    simp only [Option.map_some']
    rw [addLineHighlight_pos _ ⟨trivial, hne⟩, addLineBody_highlights,
      addLineSep_highlights]
  · intro bs i bs' h
    unfold BufferList.To at h
    dsimp only at h
    by_cases h1 : i = bs.current
    · rw [if_pos h1] at h
      simp at h
    · rw [if_neg h1] at h
      by_cases h2 : 0 ≤ i
      · rw [if_pos h2] at h
        cases hg : bs.list.get?
            (if (bs.list.length : Int) ≤ i then (bs.list.length : Int) - 1
              else i).toNat with
        | none => rw [hg] at h; simp at h
        | some b =>
          rw [hg] at h
          dsimp only at h
          injection h with h
          injection h with h h'
          subst h
          exact ⟨_, list_get?_set_self _ _ _ (list_get?_some_lt hg), rfl, rfl⟩
      · rw [if_neg h2] at h
        simp at h
  · intro bs bs' h
    unfold BufferList.Next at h
    by_cases h0 : bs.list.length = 0
    · rw [if_pos h0] at h
      exact absurd h (by simp)
    · rw [if_neg h0] at h
      dsimp only at h
      by_cases h1 : 0 ≤ (bs.current + 1).tmod (bs.list.length : Int)
      · rw [if_pos h1] at h
        cases hg : bs.list.get?
            ((bs.current + 1).tmod (bs.list.length : Int)).toNat with
        | none => rw [hg] at h; simp at h
        | some b =>
          rw [hg] at h
          dsimp only at h
          injection h with h
          subst h
          exact ⟨_, list_get?_set_self _ _ _ (list_get?_some_lt hg), rfl, rfl⟩
      · rw [if_neg h1] at h
        simp at h
  · intro bs bs' h
    unfold BufferList.Previous at h
    by_cases h0 : bs.list.length = 0
    · rw [if_pos h0] at h
      exact absurd h (by simp)
    · rw [if_neg h0] at h
      dsimp only at h
      by_cases h1 : 0 ≤ (bs.current - 1 + (bs.list.length : Int)).tmod
          (bs.list.length : Int)
      · rw [if_pos h1] at h
        cases hg : bs.list.get?
            ((bs.current - 1 + (bs.list.length : Int)).tmod
              (bs.list.length : Int)).toNat with
        | none => rw [hg] at h; simp at h
        | some b =>
          rw [hg] at h
          dsimp only at h
          injection h with h
          subst h
          exact ⟨_, list_get?_set_self _ _ _ (list_get?_some_lt hg), rfl, rfl⟩
      · rw [if_neg h1] at h
        simp at h

/-- C6 witness: adding a highlight line to the non-current #x buffer takes
its count from 0 to 1, and To(1) focuses a buffer with zero highlights and a
clear unread flag. -/
theorem c6_highlight_count_and_focus_reset_witness :
    ((c6Bs.at_ "n" "#x").2 = some (.idx 1) ∧
      c6Bs.curLoc = some (.idx 0) ∧
      (Loc.idx 1 ≠ Loc.idx 0) ∧
      c6Bs.getBuf (.idx 1) = some (newBuffer "n" "net" "#x") ∧
      BufferList.AddLine (fun _ => 1) id c6Bs "n" "#x" .notifyHighlight
        c6Line ⟨9⟩ = some c6Res ∧
      (c6Res.getBuf (.idx 1)).map (·.highlights) =
        some ((newBuffer "n" "net" "#x").highlights + 1)) ∧
    (c6Bs.To 1 = some (c6ToRes, true) ∧
      ∃ b, c6ToRes.list.get? c6ToRes.current.toNat = some b ∧
        b.highlights = 0 ∧ b.unread = false) :=
  ⟨⟨by decide, by decide, by decide, by decide, by decide,
      c6_highlight_count_and_focus_reset.1 (fun _ => 1) id c6Bs "n" "#x"
        c6Line ⟨9⟩ (.idx 1) (.idx 0) (newBuffer "n" "net" "#x") c6Res
        (by decide) (by decide) (by decide) (by decide) (by decide)⟩,
    ⟨by decide,
      c6_highlight_count_and_focus_reset.2.1 c6Bs 1 c6ToRes (by decide)⟩⟩

/-- C10: AddLine and AddLines on a (netID, title) pair that matches no
buffer in the list and does not name the open overlay return the buffer list
unchanged — in particular no buffer, counter or flag is modified. -/
theorem c10_addline_unknown_buffer_noop
    (rw : Char → Nat) (pu : StyledString → StyledString) (bs : BufferList)
    (netID title : String) (notify : NotifyType) (line : Line) (now : GoTime)
    (before after : List Line)
    (hmatch : ∀ b ∈ bs.list,
      ¬(b.netID = netID ∧ goToLower b.title = goToLower title))
    (hovl : ¬(netID = "" ∧ title = Overlay ∧ bs.overlay.isSome = true)) :
    BufferList.AddLine rw pu bs netID title notify line now = some bs ∧
    BufferList.AddLines rw pu bs netID title before after = bs := by
  have hat := at_none_of_unknown bs netID title hmatch hovl
  constructor
  · unfold BufferList.AddLine
    rw [hat]
  · unfold BufferList.AddLines
    rw [hat]

/-- C10 witness: AddLine and AddLines on the unknown pair (m, #y) leave the
state untouched. -/
theorem c10_addline_unknown_buffer_noop_witness :
    ((∀ b ∈ c10Bs.list,
        ¬(b.netID = "m" ∧ goToLower b.title = goToLower "#y")) ∧
      ¬("m" = "" ∧ "#y" = Overlay ∧ c10Bs.overlay.isSome = true)) ∧
    (BufferList.AddLine (fun _ => 1) id c10Bs "m" "#y" .notifyUnread zeroLine
        ⟨0⟩ = some c10Bs ∧
      BufferList.AddLines (fun _ => 1) id c10Bs "m" "#y" [] [] = c10Bs) :=
  ⟨⟨by decide, by decide⟩,
    c10_addline_unknown_buffer_noop (fun _ => 1) id c10Bs "m" "#y"
      .notifyUnread zeroLine ⟨0⟩ [] [] (by decide) (by decide)⟩

/-- C9 counterexample: adding a mergeable part line by "u" to the
non-current, not-yet-unread buffer "b" (whose last line is a join by "u")
merges to an empty body, so the buffer ends with NO lines at all — the
just-appended "---" separator is dropped along with the merged line — even
though every trigger condition of the claim held; the unread flag does get
set. The claim requires a red "---" separator line to be appended. -/
theorem c9_separator_counterexample :
    (c9Bs.at_ "n" "b").2 = some (.idx 1) ∧
    c9Bs.curLoc = some (.idx 0) ∧
    (Loc.idx 1 ≠ Loc.idx 0) ∧
    (c9Bs.getBuf (.idx 1)).map (·.unread) = some false ∧
    (BufferList.AddLine (fun _ => 1) id c9Bs "n" "b" .notifyUnread
        (formatEvent (.userPart "u" ⟨2⟩)) ⟨5⟩).map
      (fun r => (r.getBuf (.idx 1)).map fun bf => (bf.lines, bf.unread)) =
      some (some ([], true)) := by
  refine ⟨by decide, by decide, by decide, by decide, by decide⟩

/-- C9 (amended): for an AddLine with notify ≠ None on an existing buffer,
with `pl` the prepared incoming line: (i) if the buffer is not current, was
not unread, and `pl` does not merge with the last line, a red "---"
separator line is appended and the unread flag set, and then the new line is
appended after the separator; (ii) if `pl` instead merges with the last
line, the separator is appended first but the merge happens into the line
before it — so the merged line sits before the separator — and when the
merge empties the body both the merged line and the separator are dropped
(the unread flag stays set); (iii) when the buffer is current or already
unread, no separator is added and the unread flag is unchanged. -/
theorem c9_separator_amended
    (rw : Char → Nat) (pu : StyledString → StyledString) (bs : BufferList)
    (netID title : String) (notify : NotifyType) (line : Line) (now : GoTime)
    (bLoc cLoc : Loc) (b cur : Buffer)
    (hat : (bs.at_ netID title).2 = some bLoc)
    (hcur : bs.curLoc = some cLoc)
    (hb : bs.getBuf bLoc = some b)
    (hc : bs.getBuf cLoc = some cur)
    (hnotify : notify ≠ .notifyNone) :
    ((bLoc ≠ cLoc) → b.unread = false →
      ¬((addLinePrepare pu cur.openedOnce line).mergeable = true ∧
        b.lines.length ≠ 0 ∧
        ((b.lines.get? (b.lines.length - 1)).map (·.mergeable)).getD false
          = true) →
      ∃ bs', BufferList.AddLine rw pu bs netID title notify line now = some bs' ∧
        (bs'.getBuf bLoc).map (·.lines) = some (b.lines ++
          [sepLine now,
            { addLinePrepare pu cur.openedOnce line with
                splitPoints := computeSplitPoints rw
                  (addLinePrepare pu cur.openedOnce line).body.str }]) ∧
        (bs'.getBuf bLoc).map (·.unread) = some true) ∧
    (∀ former : Line, (bLoc ≠ cLoc) → b.unread = false →
      b.lines.get? (b.lines.length - 1) = some former →
      (addLinePrepare pu cur.openedOnce line).mergeable = true →
      b.lines.length ≠ 0 →
      former.mergeable = true →
      ∃ bs', BufferList.AddLine rw pu bs netID title notify line now = some bs' ∧
        (bs'.getBuf bLoc).map (·.unread) = some true ∧
        ((BufferList.mergeLine rw former
            (addLinePrepare pu cur.openedOnce line)).1 = true →
          (bs'.getBuf bLoc).map (·.lines) = some
            ((b.lines ++ [sepLine now]).set (b.lines.length - 1)
              (BufferList.mergeLine rw former
                (addLinePrepare pu cur.openedOnce line)).2)) ∧
        ((BufferList.mergeLine rw former
            (addLinePrepare pu cur.openedOnce line)).1 = false →
          (bs'.getBuf bLoc).map (·.lines) =
            some (b.lines.take (b.lines.length - 1)))) ∧
    ((bLoc = cLoc ∨ b.unread = true) →
      ∃ bs', BufferList.AddLine rw pu bs netID title notify line now = some bs' ∧
        (bs'.getBuf bLoc).map (·.unread) = some b.unread ∧
        (bs'.getBuf bLoc).map (·.lines) = some
          ((addLineBody rw bs.tlInnerWidth (bLoc = cLoc) b.lines.length
            (addLinePrepare pu cur.openedOnce line) b).lines)) := by
  have key : BufferList.AddLine rw pu bs netID title notify line now =
      some (bs.setBuf bLoc
        (addLineHighlight (notify = .notifyHighlight ∧ bLoc ≠ cLoc)
          (addLineBody rw bs.tlInnerWidth (bLoc = cLoc) b.lines.length
            (addLinePrepare pu cur.openedOnce line)
            (addLineSep now
              (notify ≠ .notifyNone ∧ bLoc ≠ cLoc ∧ b.unread = false) b)))) := by
    unfold BufferList.AddLine
    rw [hat, hcur]
    dsimp only
    rw [hb, hc]
  refine ⟨?_, ?_, ?_⟩
  · intro hne hun hnm
    have hsep : addLineSep now
        (notify ≠ .notifyNone ∧ bLoc ≠ cLoc ∧ b.unread = false) b =
        { b with lines := b.lines ++ [sepLine now], unread := true } := by
      unfold addLineSep
      rw [if_pos ⟨hnotify, hne, hun⟩]
    have hbody : addLineBody rw bs.tlInnerWidth (bLoc = cLoc) b.lines.length
        (addLinePrepare pu cur.openedOnce line)
        { b with lines := b.lines ++ [sepLine now], unread := true } =
        { b with
            lines := b.lines ++ [sepLine now] ++
              [{ addLinePrepare pu cur.openedOnce line with
                  splitPoints := computeSplitPoints rw
                    (addLinePrepare pu cur.openedOnce line).body.str }],
            unread := true } := by
      unfold addLineBody
      rw [if_neg ?hng]
      case hng =>
        rintro ⟨hm, hn0, hlast⟩
        refine hnm ⟨hm, hn0, ?_⟩
        rw [← list_get?_append_left b.lines (sepLine now)
          (b.lines.length - 1) (by omega)]
        exact hlast
      dsimp only
      rw [if_neg (fun hh => hne hh.1)]
    rw [key, hsep, hbody]
    refine ⟨_, rfl, ?_, ?_⟩
    · rw [getBuf_setBuf_self bs bLoc b _ hb]
      simp only [Option.map_some']
      rw [addLineHighlight_lines]
      simp [List.append_assoc]
    · rw [getBuf_setBuf_self bs bLoc b _ hb]
      simp only [Option.map_some']
      rw [addLineHighlight_unread]
  · intro former hne hun hform hm hn0 hfm
    have hsep : addLineSep now
        (notify ≠ .notifyNone ∧ bLoc ≠ cLoc ∧ b.unread = false) b =
        { b with lines := b.lines ++ [sepLine now], unread := true } := by
      unfold addLineSep
      rw [if_pos ⟨hnotify, hne, hun⟩]
    have hget : (b.lines ++ [sepLine now]).get? (b.lines.length - 1) =
        some former := by
      rw [list_get?_append_left b.lines (sepLine now) (b.lines.length - 1)
        (by omega)]
      exact hform
    have hbody : addLineBody rw bs.tlInnerWidth (bLoc = cLoc) b.lines.length
        (addLinePrepare pu cur.openedOnce line)
        { b with lines := b.lines ++ [sepLine now], unread := true } =
        (if (BufferList.mergeLine rw former
              (addLinePrepare pu cur.openedOnce line)).1 then
          { b with
              lines := (b.lines ++ [sepLine now]).set (b.lines.length - 1)
                (BufferList.mergeLine rw former
                  (addLinePrepare pu cur.openedOnce line)).2,
              unread := true }
        else
          { b with
              lines := (b.lines ++ [sepLine now]).take (b.lines.length - 1),
              unread := true }) := by
      unfold addLineBody
      rw [if_pos ⟨hm, hn0, by rw [hget]; exact hfm⟩]
      rw [hget]
    rw [key, hsep, hbody]
    refine ⟨_, rfl, ?_, ?_, ?_⟩
    · rw [getBuf_setBuf_self bs bLoc b _ hb]
      simp only [Option.map_some']
      rw [addLineHighlight_unread]
      split <;> rfl
    · intro hk
      rw [getBuf_setBuf_self bs bLoc b _ hb]
      simp only [Option.map_some']
      rw [addLineHighlight_lines, if_pos hk]
    · intro hk
      rw [getBuf_setBuf_self bs bLoc b _ hb]
      simp only [Option.map_some']
      rw [addLineHighlight_lines, if_neg (by rw [hk]; exact Bool.false_ne_true)]
      dsimp only
      rw [list_take_append_left b.lines (sepLine now) (b.lines.length - 1)
        (by omega)]
  · intro hcu
    have hsep : addLineSep now
        (notify ≠ .notifyNone ∧ bLoc ≠ cLoc ∧ b.unread = false) b = b := by
      unfold addLineSep
      rw [if_neg ?hng]
      case hng =>
        rintro ⟨h1, h2, h3⟩
        cases hcu with
        | inl h => exact h2 h
        | inr h => rw [h] at h3; exact absurd h3 (by decide)
    rw [key, hsep]
    refine ⟨_, rfl, ?_, ?_⟩
    · rw [getBuf_setBuf_self bs bLoc b _ hb]
      simp only [Option.map_some']
      rw [addLineHighlight_unread, addLineBody_unread]
    · rw [getBuf_setBuf_self bs bLoc b _ hb]
      simp only [Option.map_some']
      rw [addLineHighlight_lines]

/-- C9 witness: the merge clause of the amended statement evaluated on the
concrete join-then-part scenario (the merge empties the body, so the buffer
keeps its first zero lines and the separator disappears; unread is set). -/
theorem c9_separator_amended_witness :
    ((c9Bs.at_ "n" "b").2 = some (.idx 1) ∧
      c9Bs.curLoc = some (.idx 0) ∧
      c9Bs.getBuf (.idx 1) = some c9BufB ∧
      c9Bs.getBuf (.idx 0) = some (newBuffer "n" "net" "a") ∧
      (NotifyType.notifyUnread ≠ NotifyType.notifyNone) ∧
      (Loc.idx 1 ≠ Loc.idx 0) ∧
      c9BufB.unread = false ∧
      c9BufB.lines.get? (c9BufB.lines.length - 1) =
        some (formatEvent (.userJoin "u" ⟨1⟩)) ∧
      (addLinePrepare id (newBuffer "n" "net" "a").openedOnce
        (formatEvent (.userPart "u" ⟨2⟩))).mergeable = true ∧
      c9BufB.lines.length ≠ 0 ∧
      (formatEvent (.userJoin "u" ⟨1⟩)).mergeable = true) ∧
    (∃ bs', BufferList.AddLine (fun _ => 1) id c9Bs "n" "b" .notifyUnread
        (formatEvent (.userPart "u" ⟨2⟩)) ⟨5⟩ = some bs' ∧
      (bs'.getBuf (.idx 1)).map (·.unread) = some true ∧
      ((BufferList.mergeLine (fun _ => 1) (formatEvent (.userJoin "u" ⟨1⟩))
          (addLinePrepare id (newBuffer "n" "net" "a").openedOnce
            (formatEvent (.userPart "u" ⟨2⟩)))).1 = true →
        (bs'.getBuf (.idx 1)).map (·.lines) = some
          ((c9BufB.lines ++ [sepLine ⟨5⟩]).set (c9BufB.lines.length - 1)
            (BufferList.mergeLine (fun _ => 1)
              (formatEvent (.userJoin "u" ⟨1⟩))
              (addLinePrepare id (newBuffer "n" "net" "a").openedOnce
                (formatEvent (.userPart "u" ⟨2⟩)))).2)) ∧
      ((BufferList.mergeLine (fun _ => 1) (formatEvent (.userJoin "u" ⟨1⟩))
          (addLinePrepare id (newBuffer "n" "net" "a").openedOnce
            (formatEvent (.userPart "u" ⟨2⟩)))).1 = false →
        (bs'.getBuf (.idx 1)).map (·.lines) =
          some (c9BufB.lines.take (c9BufB.lines.length - 1)))) :=
  ⟨⟨by decide, by decide, by decide, by decide, by decide, by decide,
      by decide, by decide, by decide, by decide, by decide⟩,
    (c9_separator_amended (fun _ => 1) id c9Bs "n" "b" .notifyUnread
        (formatEvent (.userPart "u" ⟨2⟩)) ⟨5⟩ (.idx 1) (.idx 0) c9BufB
        (newBuffer "n" "net" "a") (by decide) (by decide) (by decide)
        (by decide) (by decide)).2.1
      (formatEvent (.userJoin "u" ⟨1⟩)) (by decide) (by decide) (by decide)
      (by decide) (by decide) (by decide)⟩

/-- C1: handling QUIT from "u" emits an event whose channel list is exactly
["#a"] — the channels whose member maps contain "u" — but returns the session
unchanged: "u" is still in #a's member map afterwards, although the claim
(and the spec, like the PART case of the same function) requires the user to
be removed from those channels. -/
theorem c1_quit_channels_listed_but_member_not_removed :
    Session.handleQuit c1Session "u" ⟨100⟩ =
      (c1Session, ⟨["#a"], "u", ⟨100⟩⟩) ∧
    ((mapLookup "#a" (Session.handleQuit c1Session "u" ⟨100⟩).1.channels).map
      (fun c => (mapLookup "u" c.members).isSome)) = some true := by
  refine ⟨by decide, by decide⟩

/-- C5: with `message-tags` enabled and no recorded typing stamp for the
target, two typing actions less than three seconds apart send exactly one
`@+typing=active TAGMSG <target>` line (the first sends it, the second is
rate-limited); and without `message-tags`, typing sends nothing and leaves
the session untouched. -/
theorem c5_typing_rate_limit :
    (∀ (s : Session) (target : String) (t1 t2 : GoTime),
      s.enabledCaps.contains "message-tags" = true →
      mapLookup (goToLower target) s.typingStamps = none →
      (t2.ns - t1.ns).natAbs < 3 * 1000000000 →
      (s.typing target t1).2 = some ("@+typing=active TAGMSG " ++ target ++ "\r\n") ∧
      ((s.typing target t1).1.typing target t2).2 = none) ∧
    (∀ (s : Session) (target : String) (t : GoTime),
      s.enabledCaps.contains "message-tags" = false →
      s.typing target t = (s, none)) := by
  constructor
  · intro s target t1 t2 hcap hfresh hlt
    have h1 : s.typing target t1 =
        ({ s with typingStamps := mapInsert (goToLower target) t1 s.typingStamps },
          some ("@+typing=active TAGMSG " ++ target ++ "\r\n")) := by
      unfold Session.typing
      rw [if_neg (fun h => h hcap), hfresh]
    refine ⟨by rw [h1], ?_⟩
    rw [h1]
    unfold Session.typing
    rw [if_neg (fun h => h hcap)]
    simp only [mapLookup_insert_self]
    rw [if_pos (show t2.ns - t1.ns < 3 * nsPerSec by simp only [nsPerSec]; omega)]
  · intro s target t hcap
    unfold Session.typing
    rw [if_pos (fun h => by rw [hcap] at h; exact Bool.false_ne_true h)]

/-- C5 witness: the rate limit evaluated on a fresh session and two typing
actions one second apart. -/
theorem c5_typing_rate_limit_witness :
    (c5Session.enabledCaps.contains "message-tags" = true ∧
      mapLookup (goToLower "#a") c5Session.typingStamps = none ∧
      (((⟨nsPerSec⟩ : GoTime)).ns - ((⟨0⟩ : GoTime)).ns).natAbs < 3 * 1000000000) ∧
    ((c5Session.typing "#a" ⟨0⟩).2 =
        some ("@+typing=active TAGMSG " ++ "#a" ++ "\r\n") ∧
      ((c5Session.typing "#a" ⟨0⟩).1.typing "#a" ⟨nsPerSec⟩).2 = none) :=
  ⟨⟨by decide, by decide, by decide⟩,
    c5_typing_rate_limit.1 c5Session "#a" ⟨0⟩ ⟨nsPerSec⟩
      (by decide) (by decide) (by decide)⟩

/-- C4 counterexample: the bound with first = 10 s and last = the zero time is
non-empty in the code's sense (`IsZero` only checks `first`), and a line at 5 s
lies after its `last`; the claim then requires `Compare` to return +1, but the
code returns -1 (the line is before `first`, which is tested first). -/
theorem c4_compare_counterexample :
    ¬ Bound.IsZero ⟨⟨10 * nsPerSec⟩, ⟨0⟩, "a", ""⟩ ∧
    (GoTime.truncSec ⟨5 * nsPerSec⟩).ns > (0 : Int) ∧
    Bound.Compare ⟨⟨10 * nsPerSec⟩, ⟨0⟩, "a", ""⟩
      { zeroLine with at_ := ⟨5 * nsPerSec⟩, body := plainString "x" } = -1 ∧
    (-1 : Int) ≠ 1 := by
  refine ⟨by decide, by decide, by decide, by decide⟩

/-- C4 (amended): for every bound whose first and last timestamps are both
non-zero with first ≤ last, `Compare` classifies a line by its second-truncated
time: -1 when before first, +1 when after last, 0 when strictly between, and -1
at an equal boundary whose body differs from the stored boundary message. -/
theorem c4_compare_classification_amended (b : Bound) (l : Line)
    (_h1 : b.first.ns ≠ 0) (_h2 : b.last.ns ≠ 0) (h3 : b.first.ns ≤ b.last.ns) :
    ((l.at_.truncSec).ns < b.first.ns → b.Compare l = -1) ∧
    ((l.at_.truncSec).ns > b.last.ns → b.Compare l = 1) ∧
    ((b.first.ns < (l.at_.truncSec).ns ∧ (l.at_.truncSec).ns < b.last.ns) →
      b.Compare l = 0) ∧
    (((l.at_.truncSec).ns = b.first.ns ∧ l.body.str ≠ b.firstMessage) →
      b.Compare l = -1) ∧
    (((l.at_.truncSec).ns = b.last.ns ∧ l.body.str ≠ b.lastMessage) →
      b.Compare l = -1) := by
  unfold Bound.Compare
  refine ⟨fun h => ?_, fun h => ?_, fun h => ?_, fun h => ?_, fun h => ?_⟩
  · rw [if_pos h]
  · rw [if_neg (by omega), if_pos h]
  · rw [if_neg (by omega), if_neg (by omega),
      if_neg (by rintro ⟨he, _⟩; omega), if_neg (by rintro ⟨he, _⟩; omega)]
  · rw [if_neg (by omega), if_neg (by omega)]
    by_cases hf : (l.at_.truncSec).ns = b.first.ns ∧ l.body.str ≠ b.firstMessage
    · rw [if_pos hf]
    · exact absurd h hf
  · rw [if_neg (by omega), if_neg (by omega)]
    by_cases hf : (l.at_.truncSec).ns = b.first.ns ∧ l.body.str ≠ b.firstMessage
    · rw [if_pos hf]
    · rw [if_neg hf, if_pos h]

/-- C4 witness: the amended classification evaluated on a concrete bound
(10 s .. 20 s) and a line at 15 s. -/
theorem c4_compare_classification_amended_witness :
    (10 * nsPerSec : Int) ≠ 0 ∧ (20 * nsPerSec : Int) ≠ 0 ∧
    (10 * nsPerSec : Int) ≤ 20 * nsPerSec ∧
    (((GoTime.truncSec ⟨15 * nsPerSec⟩).ns < 10 * nsPerSec →
        Bound.Compare ⟨⟨10 * nsPerSec⟩, ⟨20 * nsPerSec⟩, "a", "b"⟩
          { zeroLine with at_ := ⟨15 * nsPerSec⟩, body := plainString "x" } = -1) ∧
      ((GoTime.truncSec ⟨15 * nsPerSec⟩).ns > 20 * nsPerSec →
        Bound.Compare ⟨⟨10 * nsPerSec⟩, ⟨20 * nsPerSec⟩, "a", "b"⟩
          { zeroLine with at_ := ⟨15 * nsPerSec⟩, body := plainString "x" } = 1) ∧
      (((10 * nsPerSec : Int) < (GoTime.truncSec ⟨15 * nsPerSec⟩).ns ∧
          (GoTime.truncSec ⟨15 * nsPerSec⟩).ns < 20 * nsPerSec) →
        Bound.Compare ⟨⟨10 * nsPerSec⟩, ⟨20 * nsPerSec⟩, "a", "b"⟩
          { zeroLine with at_ := ⟨15 * nsPerSec⟩, body := plainString "x" } = 0) ∧
      (((GoTime.truncSec ⟨15 * nsPerSec⟩).ns = 10 * nsPerSec ∧
          (plainString "x").str ≠ "a") →
        Bound.Compare ⟨⟨10 * nsPerSec⟩, ⟨20 * nsPerSec⟩, "a", "b"⟩
          { zeroLine with at_ := ⟨15 * nsPerSec⟩, body := plainString "x" } = -1) ∧
      (((GoTime.truncSec ⟨15 * nsPerSec⟩).ns = 20 * nsPerSec ∧
          (plainString "x").str ≠ "b") →
        Bound.Compare ⟨⟨10 * nsPerSec⟩, ⟨20 * nsPerSec⟩, "a", "b"⟩
          { zeroLine with at_ := ⟨15 * nsPerSec⟩, body := plainString "x" } = -1)) :=
  ⟨by decide, by decide, by decide,
    c4_compare_classification_amended
      ⟨⟨10 * nsPerSec⟩, ⟨20 * nsPerSec⟩, "a", "b"⟩
      { zeroLine with at_ := ⟨15 * nsPerSec⟩, body := plainString "x" }
      (by decide) (by decide) (by decide)⟩

/-- C3 counterexample: two concrete failures of the claim "after Update the
bounds include the line". First, updating the empty bound with a line at 5 s
sets only `first`, so `Compare` afterwards returns 1 (not 0) and `last`
(still the zero time) is before the line's time. Second, updating the bound
10 s .. 20 s with a line at exactly 10 s whose body differs from
`firstMessage` changes nothing, and `Compare` afterwards returns -1 (not 0). -/
theorem c3_update_bounds_counterexample :
    (Bound.Compare
        (Bound.Update ⟨⟨0⟩, ⟨0⟩, "", ""⟩
          { zeroLine with at_ := ⟨5 * nsPerSec⟩, body := plainString "x" })
        { zeroLine with at_ := ⟨5 * nsPerSec⟩, body := plainString "x" } = 1 ∧
      (Bound.Update ⟨⟨0⟩, ⟨0⟩, "", ""⟩
          { zeroLine with at_ := ⟨5 * nsPerSec⟩, body := plainString "x" }).last.ns <
        (GoTime.truncSec ⟨5 * nsPerSec⟩).ns) ∧
    Bound.Compare
        (Bound.Update ⟨⟨10 * nsPerSec⟩, ⟨20 * nsPerSec⟩, "a", "b"⟩
          { zeroLine with at_ := ⟨10 * nsPerSec⟩, body := plainString "c" })
        { zeroLine with at_ := ⟨10 * nsPerSec⟩, body := plainString "c" } = -1 := by
  refine ⟨⟨by decide, by decide⟩, by decide⟩

/-- C3 (amended): for every line with a non-zero timestamp and every bound
whose first and last are both non-zero with first ≤ last, provided the line
is not a boundary duplicate with a differing body (equal truncated time but
different body at `first` or `last`), after `Update` the bounds include the
line: `Compare` returns 0, `first` is not after the line's truncated time,
and `last` is not before it. -/
theorem c3_update_includes_line_amended (b : Bound) (l : Line)
    (h0 : l.at_.ns ≠ 0) (h1 : b.first.ns ≠ 0) (h2 : b.last.ns ≠ 0)
    (h3 : b.first.ns ≤ b.last.ns)
    (h4 : ¬((l.at_.truncSec).ns = b.first.ns ∧ l.body.str ≠ b.firstMessage))
    (h5 : ¬((l.at_.truncSec).ns = b.last.ns ∧ l.body.str ≠ b.lastMessage)) :
    (b.Update l).Compare l = 0 ∧
    (b.Update l).first.ns ≤ (l.at_.truncSec).ns ∧
    (l.at_.truncSec).ns ≤ (b.Update l).last.ns := by
  by_cases hlt : (l.at_.truncSec).ns < b.first.ns
  · have hU : b.Update l =
        { first := l.at_.truncSec, last := b.last,
          firstMessage := l.body.str, lastMessage := b.lastMessage } := by
      unfold Bound.Update
      rw [if_neg h0, if_pos (Or.inr hlt)]
    rw [hU]
    unfold Bound.Compare
    dsimp only
    rw [if_neg (by omega), if_neg (by omega),
      if_neg (by rintro ⟨_, hne⟩; exact hne rfl),
      if_neg (by rintro ⟨he, _⟩; omega)]
    exact ⟨rfl, by omega, by omega⟩
  · by_cases hgt : b.last.ns < (l.at_.truncSec).ns
    · have hU : b.Update l =
          { first := b.first, last := l.at_.truncSec,
            firstMessage := b.firstMessage, lastMessage := l.body.str } := by
        unfold Bound.Update
        rw [if_neg h0, if_neg (by rintro (h | h) <;> omega), if_pos (Or.inr hgt)]
      rw [hU]
      unfold Bound.Compare
      dsimp only
      rw [if_neg (by omega), if_neg (by omega),
        if_neg (by rintro ⟨he, _⟩; omega),
        if_neg (by rintro ⟨_, hne⟩; exact hne rfl)]
      exact ⟨rfl, by omega, by omega⟩
    · have hU : b.Update l = b := by
        unfold Bound.Update
        rw [if_neg h0, if_neg (by rintro (h | h) <;> omega),
          if_neg (by rintro (h | h) <;> omega)]
      rw [hU]
      unfold Bound.Compare
      rw [if_neg (by omega), if_neg (by omega), if_neg h4, if_neg h5]
      exact ⟨rfl, by omega, by omega⟩

/-- C3 witness: the amended inclusion evaluated on the bound 10 s .. 20 s and
a line at 25 s (plus 7 ns, exercising the truncation). -/
theorem c3_update_includes_line_amended_witness :
    ((25 * nsPerSec + 7 : Int) ≠ 0 ∧ (10 * nsPerSec : Int) ≠ 0 ∧
      (20 * nsPerSec : Int) ≠ 0 ∧ (10 * nsPerSec : Int) ≤ 20 * nsPerSec ∧
      ¬((GoTime.truncSec ⟨25 * nsPerSec + 7⟩).ns = 10 * nsPerSec ∧
        (plainString "x").str ≠ "a") ∧
      ¬((GoTime.truncSec ⟨25 * nsPerSec + 7⟩).ns = 20 * nsPerSec ∧
        (plainString "x").str ≠ "b")) ∧
    ((Bound.Update ⟨⟨10 * nsPerSec⟩, ⟨20 * nsPerSec⟩, "a", "b"⟩
        { zeroLine with at_ := ⟨25 * nsPerSec + 7⟩, body := plainString "x" }).Compare
      { zeroLine with at_ := ⟨25 * nsPerSec + 7⟩, body := plainString "x" } = 0 ∧
     (Bound.Update ⟨⟨10 * nsPerSec⟩, ⟨20 * nsPerSec⟩, "a", "b"⟩
        { zeroLine with at_ := ⟨25 * nsPerSec + 7⟩, body := plainString "x" }).first.ns ≤
      (GoTime.truncSec ⟨25 * nsPerSec + 7⟩).ns ∧
     (GoTime.truncSec ⟨25 * nsPerSec + 7⟩).ns ≤
      (Bound.Update ⟨⟨10 * nsPerSec⟩, ⟨20 * nsPerSec⟩, "a", "b"⟩
        { zeroLine with at_ := ⟨25 * nsPerSec + 7⟩, body := plainString "x" }).last.ns) :=
  ⟨⟨by decide, by decide, by decide, by decide, by decide, by decide⟩,
    c3_update_includes_line_amended
      ⟨⟨10 * nsPerSec⟩, ⟨20 * nsPerSec⟩, "a", "b"⟩
      { zeroLine with at_ := ⟨25 * nsPerSec + 7⟩, body := plainString "x" }
      (by decide) (by decide) (by decide) (by decide) (by decide) (by decide)⟩

/-- C7: counterexample to the claimed ordering. The code compares netName with
Go's `<` on raw strings (case-SENSITIVELY), so adding networks named "alpha"
and "Beta" yields the list [Beta, alpha], which is not sorted case-insensitively
by netName. And when `Add` is called with an empty netName for a known netID,
the inherited netName is only adopted once the scan walks past a buffer of that
netID, so a buffer sorted before the netID's first buffer is placed by the
empty name: adding (idA,"n","m"), (idB,"n","p"), then (idB,"","a") yields
titles [m, a, p], breaking the title order within netName "n". -/
theorem c7_sorted_counterexample :
    specSortedCI (applyOps [BufOp.add "1" "alpha" "", BufOp.add "2" "Beta" ""]).list
      = false ∧
    specSortedCI (applyOps [BufOp.add "idA" "n" "m", BufOp.add "idB" "n" "p",
      BufOp.add "idB" "" "a"]).list = false := by
  constructor <;> decide

/-- C7 (amended): after any sequence of Add and Remove operations in which
every Add supplies a non-empty netName, the buffer list is strictly sorted by
netName ascending case-sensitively (Go byte order), then by title ascending
case-insensitively. -/
theorem c7_sorted_invariant_amended (ops : List BufOp)
    (hok : ∀ op ∈ ops, opNetNameOk op) :
    sortedBuffers (applyOps ops).list := by
  have main : ∀ (ops : List BufOp) (bs : BufferList), sortedBuffers bs.list →
      (∀ op ∈ ops, opNetNameOk op) →
      sortedBuffers (ops.foldl applyOp bs).list := by
    intro ops
    induction ops with
    | nil =>
      intro bs hs _
      exact hs
    | cons op rest ih =>
      intro bs hs hok
      simp only [List.foldl_cons]
      refine ih (applyOp bs op) ?_ fun o ho => hok o (List.mem_cons_of_mem _ ho)
      cases op with
      | add netID netName title =>
        have hh : opNetNameOk (BufOp.add netID netName title) := hok _ (by simp)
        exact Add_sorted bs netID netName title hh hs
      | remove netID title => exact Remove_sorted bs netID title hs
  exact main ops NewBufferList List.Pairwise.nil hok

/-- C7 witness: a concrete sequence of adds and a remove, evaluated. -/
theorem c7_sorted_invariant_amended_witness :
    (∀ op ∈ [BufOp.add "1" "beta" "#b", BufOp.add "1" "alpha" "#z",
      BufOp.add "1" "alpha" "#A", BufOp.remove "1" "#z"], opNetNameOk op) ∧
    sortedBuffers (applyOps [BufOp.add "1" "beta" "#b",
      BufOp.add "1" "alpha" "#z", BufOp.add "1" "alpha" "#A",
      BufOp.remove "1" "#z"]).list :=
  ⟨by decide,
    c7_sorted_invariant_amended
      [BufOp.add "1" "beta" "#b", BufOp.add "1" "alpha" "#z",
        BufOp.add "1" "alpha" "#A", BufOp.remove "1" "#z"]
      (by decide)⟩

end Kouhai
